import Mathlib

/-!
Verification development for the Diora blockchain core
(blockchain orchestrator, account state, proof-of-stake consensus engine,
bytecode interpreter).  Go source files are shallowly embedded below:
machine integers become Nat or Int with the Go conversions made explicit,
the leveldb key-value store becomes association lists, struct mutation
becomes explicit state passing, and Go runtime panics become an explicit
outcome.  Nondeterministic inputs of the source (wall-clock time, the
secure random draw, ECDSA signature verification results, database I/O
failures) are passed in as explicit parameters, so theorems quantifying
over them cover every run of the source.
-/

namespace Diora

/-- 20-byte address, modelled as a natural number; the Go zero value
`core.Address\x7b\x7d` is `0`. -/
abbrev Address := Nat

/-- 32-byte hash, modelled as a natural number. -/
abbrev Hash := Nat

/-- The Go conversion `int64(u)` of a `uint64` value `u` (two's complement
reinterpretation, as in `big.NewInt(int64(x))`). -/
def int64OfUint64 (u : Nat) : Int :=
  if u % 2 ^ 64 < 2 ^ 63 then ((u % 2 ^ 64 : Nat) : Int)
  else ((u % 2 ^ 64 : Nat) : Int) - 2 ^ 64

/-- The Go method `(*big.Int).Uint64()` : the low 64 bits of the absolute
value (the gc runtime returns the low word of the magnitude). -/
def goUint64OfInt (x : Int) : Nat := x.natAbs % 2 ^ 64

/-- Go `uint64` subtraction `a - b` (wraps modulo 2^64). -/
def usub64 (a b : Nat) : Nat :=
  (((a : Int) - (b : Int)) % (2 ^ 64)).toNat

theorem usub64_of_le {a b : Nat} (hb : b ≤ a) (ha : a < 2 ^ 64) :
    usub64 a b = a - b := by
  unfold usub64
  have h1 : (0 : Int) ≤ (a : Int) - (b : Int) := by
    omega
  have h2 : (a : Int) - (b : Int) < 2 ^ 64 := by
    omega
  rw [Int.emod_eq_of_lt h1 h2]
  omega

/-! ## Consensus engine: `consensus/pos.go` -/

/-- `ValidatorStatus` from pos.go. -/
inductive VStatus
  | inactive
  | active
  | slashed
deriving DecidableEq, Repr, Inhabited

/-- `DelegationStatus` from pos.go. -/
inductive DStatus
  | dActive
  | unbonding
  | completed
deriving DecidableEq, Repr

/-- `Validator` from pos.go.  `Stake`, `TotalDelegated` and `Rewards` are
`*big.Int` (arbitrary-precision, possibly negative after slashing), hence
`Int`.  `LastActive` (a `time.Time`) is a numeric timestamp.  The ECDSA
`PublicKey` field is not modelled: the only code reading it
(`PoS.ValidateBlock` signature verification) is treated as an oracle input
in the orchestrator model. -/
structure Validator where
  address : Address
  stake : Int
  totalDelegated : Int
  commission : Nat
  status : VStatus
  lastActive : Nat
  totalBlocks : Nat
  rewards : Int
deriving DecidableEq, Repr, Inhabited

/-- `Delegation` from pos.go (`StartTime` and `UnbondTime` are numeric
timestamps in the same clock as the `now` parameters below). -/
structure Delegation where
  delegator : Address
  validator : Address
  amount : Int
  rewards : Int
  startTime : Nat
  unbondTime : Nat
  status : DStatus
deriving DecidableEq, Repr

/-- `consensus.Config` from pos.go (the fields read by the modelled
operations; durations are timestamps/ticks on the same clock as `now`). -/
structure PoSConfig where
  minStakeAmount : Int
  maxValidators : Nat
  unbondingPeriod : Nat
  rewardRate : Int
  slashRate : Int
  commissionRate : Nat
deriving DecidableEq, Repr

/-- `PoS` from pos.go.  The two Go maps become association lists (first
match wins, as for unique-keyed maps); the list order stands for the
(unspecified) map iteration order, and theorems quantify over it. -/
structure PoSState where
  validators : List (Address × Validator)
  delegators : List (Address × List Delegation)
  totalStake : Int
  config : PoSConfig
deriving DecidableEq, Repr

/-- `NewPoS(stakeAmount, maxValidators)` from pos.go; durations are in
nanoseconds as in Go `time.Duration` literals. -/
def newPoS (stakeAmount : Int) (maxValidators : Nat) : PoSState :=
  { validators := []
    delegators := []
    totalStake := 0
    config :=
      { minStakeAmount := stakeAmount
        maxValidators := maxValidators
        unbondingPeriod := 7 * 24 * 60 * 60 * 1000000000
        rewardRate := 1000000000000000000
        slashRate := 500000000000000000
        commissionRate := 1000 } }

/-- Update the first entry with the given key in an association list. -/
def updAssoc {β : Type} (k : Nat) (f : β → β) : List (Nat × β) → List (Nat × β)
  | [] => []
  | (k', v) :: rest =>
    if k' = k then (k', f v) :: rest else (k', v) :: updAssoc k f rest

/-- `PoS.RegisterValidator(address, stake, commission, publicKey)` from
pos.go.  `now` is the `time.Now()` value stored in `LastActive`. -/
def registerValidator (now : Nat) (address : Address) (stake : Int)
    (commission : Nat) (s : PoSState) : Except String PoSState :=
  if stake < s.config.minStakeAmount then
    .error "stake amount too low"
  else if s.config.maxValidators ≤ s.validators.length then
    .error "maximum validators reached"
  else if (s.validators.lookup address).isSome then
    .error "validator already registered"
  else
    let v : Validator :=
      { address := address
        stake := stake
        totalDelegated := 0
        commission := commission
        status := .active
        lastActive := now
        totalBlocks := 0
        rewards := 0 }
    .ok { s with
          validators := (address, v) :: s.validators
          totalStake := s.totalStake + stake }

/-- `PoS.Delegate(delegator, validator, amount)` from pos.go. -/
def delegate (now : Nat) (delegator validator : Address) (amount : Int)
    (s : PoSState) : Except String PoSState :=
  match s.validators.lookup validator with
  | none => .error "validator not found"
  | some v =>
    if v.status ≠ .active then
      .error "validator not active"
    else
      let d : Delegation :=
        { delegator := delegator
          validator := validator
          amount := amount
          rewards := 0
          startTime := now
          unbondTime := 0
          status := .dActive }
      let old := (s.delegators.lookup delegator).getD []
      let delegators' :=
        if (s.delegators.lookup delegator).isSome then
          updAssoc delegator (fun l => l ++ [d]) s.delegators
        else
          (delegator, old ++ [d]) :: s.delegators
      .ok { s with
            delegators := delegators'
            validators :=
              updAssoc validator
                (fun w => { w with totalDelegated := w.totalDelegated + amount })
                s.validators
            totalStake := s.totalStake + amount }

/-- The loop of `PoS.Unbond`: find the first delegation to `validator`
with status Active, returning the capped unbond amount, and mark it
Unbonding with the given unbond time. -/
def unbondAux (validator : Address) (amount : Int) (unbondTime : Nat) :
    List Delegation → Option (Int × List Delegation)
  | [] => none
  | d :: rest =>
    if d.validator = validator ∧ d.status = .dActive then
      let unbondAmount := if amount < d.amount then amount else d.amount
      some (unbondAmount,
        { d with status := .unbonding, unbondTime := unbondTime } :: rest)
    else
      (unbondAux validator amount unbondTime rest).map
        (fun p => (p.1, d :: p.2))

/-- `PoS.Unbond(delegator, validator, amount)` from pos.go.  `now` is
`time.Now()`. -/
def unbond (now : Nat) (delegator validator : Address) (amount : Int)
    (s : PoSState) : Except String PoSState :=
  match s.delegators.lookup delegator with
  | none => .error "no delegations found"
  | some ds =>
    match unbondAux validator amount (now + s.config.unbondingPeriod) ds with
    | none => .error "active delegation not found"
    | some (unbondAmount, ds') =>
      .ok { s with
            delegators := updAssoc delegator (fun _ => ds') s.delegators
            validators :=
              updAssoc validator
                (fun w => { w with totalDelegated := w.totalDelegated - unbondAmount })
                s.validators
            totalStake := s.totalStake - unbondAmount }

/-- The loop of `PoS.CompleteUnbonding`: scan the delegations for the
first one to `validator` in state Unbonding; fail if `now` is before its
unbond time, else mark it Completed and return `amount + rewards`. -/
def completeAux (now : Nat) (validator : Address) :
    List Delegation → Except String (Int × List Delegation)
  | [] => .error "unbonding delegation not found"
  | d :: rest =>
    if d.validator = validator ∧ d.status = .unbonding then
      if now < d.unbondTime then
        .error "unbonding period not completed"
      else
        .ok (d.amount + d.rewards, { d with status := .completed } :: rest)
    else
      (completeAux now validator rest).map (fun p => (p.1, d :: p.2))

/-- `PoS.CompleteUnbonding(delegator, validator)` from pos.go; `now` is
`time.Now()`.  Returns the amount and the updated state. -/
def completeUnbonding (now : Nat) (delegator validator : Address)
    (s : PoSState) : Except String (Int × PoSState) :=
  match s.delegators.lookup delegator with
  | none => .error "no delegations found"
  | some ds =>
    match completeAux now validator ds with
    | .error e => .error e
    | .ok (amt, ds') =>
      .ok (amt, { s with delegators := updAssoc delegator (fun _ => ds') s.delegators })

/-- The delegation predicate scanned for by `CompleteUnbonding`:
delegated to `validator` and currently in the Unbonding state. -/
def isUnbondingTo (validator : Address) (dg : Delegation) : Bool :=
  dg.validator = validator ∧ dg.status = .unbonding

/-- `PoS.getActiveValidators` from pos.go (map iteration order is the
list order of the model). -/
def getActiveValidators (s : PoSState) : List Validator :=
  (s.validators.map Prod.snd).filter (fun v => v.status = .active)

/-- The selection walk of `PoS.SelectValidator`: accumulate weights until
the cumulative sum exceeds the draw; the Go fallback
`activeValidators[0].Address` is reached when no prefix sum exceeds it. -/
def selectWalk (draw : Int) (cumulative : Int) (fallback : Address) :
    List (Validator × Int) → Address
  | [] => fallback
  | (v, w) :: rest =>
    let c := cumulative + w
    if draw < c then v.address else selectWalk draw c fallback rest

/-- `PoS.SelectValidator(slot)` from pos.go.  `randNum` is the 256-bit
integer read from the secure random source (a parameter of the model);
the code reduces it modulo the total weight (Go `big.Int.Mod`, Euclidean,
matching `Int.emod`).  The `slot` argument is unused by the source body. -/
def selectValidator (randNum : Nat) (s : PoSState) : Address :=
  let active := getActiveValidators s
  if active.isEmpty then 0
  else
    let weights := active.map (fun v => (v, v.stake + v.totalDelegated))
    let totalWeight := (weights.map Prod.snd).sum
    if totalWeight = 0 then 0
    else
      let draw := (randNum : Int).emod totalWeight
      selectWalk draw 0 (active.headD default).address weights

/-- The divisors of every `big.Int.Div` executed by
`PoS.distributeRewards` and `PoS.distributeDelegatorRewards` for the
given producing validator, in execution order: the commission divisor
10000, the validator-reward divisor `Stake + TotalDelegated`, and (only
when `TotalDelegated > 0`) the delegator-reward divisor `TotalDelegated`
plus one `TotalDelegated` divisor per active delegation to the
validator. -/
def rewardDivisors (s : PoSState) (vaddr : Address) : List Int :=
  match s.validators.lookup vaddr with
  | none => []
  | some v =>
    [10000, v.stake + v.totalDelegated] ++
      (if 0 < v.totalDelegated then
        v.totalDelegated ::
          ((s.delegators.map Prod.snd).flatMap
            (fun ds => ds.filter
              (fun d => d.validator = vaddr ∧ d.status = .dActive))).map
            (fun _ => v.totalDelegated)
      else [])

/-- `PoS.distributeDelegatorRewards(validator, reward)` from pos.go:
credit `reward * amount / TotalDelegated` to every Active delegation to
`validator`.  `totalDelegated` is `pos.validators[validator].TotalDelegated`
(nonzero at the call site, guarded by the caller); a zero divisor would
panic, returning `none`. -/
def distributeDelegatorRewards (vaddr : Address) (reward totalDelegated : Int)
    (s : PoSState) : Option PoSState :=
  if totalDelegated = 0 then none
  else
    some { s with
      delegators := s.delegators.map (fun (da, ds) =>
        (da, ds.map (fun d =>
          if d.validator = vaddr ∧ d.status = .dActive then
            { d with rewards := d.rewards + (reward * d.amount).ediv totalDelegated }
          else d))) }

/-- `PoS.distributeRewards(block)` from pos.go, for the block whose
`Header.Validator` is `vaddr` (the caller `UpdateBlock` has checked the
validator exists).  Go `big.Int.Div` is Euclidean division (`Int.ediv`);
a zero divisor panics, modelled as `none`.  The conversions
`int64(validator.Commission)` and `big.NewInt(int64(validator.Stake.Uint64()))`
are the explicit Go integer conversions. -/
def distributeRewards (vaddr : Address) (s : PoSState) : Option PoSState :=
  match s.validators.lookup vaddr with
  | none => none
  | some v =>
    let blockReward := s.config.rewardRate
    let commission := (blockReward * int64OfUint64 v.commission).ediv 10000
    let vDivisor := v.stake + v.totalDelegated
    if vDivisor = 0 then none
    else
      let validatorReward :=
        (commission + blockReward * int64OfUint64 (goUint64OfInt v.stake)).ediv vDivisor
      let vs1 :=
        updAssoc vaddr (fun w => { w with rewards := w.rewards + validatorReward })
          s.validators
      let s1 := { s with validators := vs1 }
      if 0 < v.totalDelegated then
        let delegatorReward :=
          (blockReward - commission -
            validatorReward * ((v.stake + v.totalDelegated) - v.stake)).ediv
            v.totalDelegated
        distributeDelegatorRewards vaddr delegatorReward v.totalDelegated s1
      else
        some s1

/-- `PoS.UpdateBlock(block)` from pos.go, keyed by the block header
validator address; `now` is `time.Now()`.  A missing validator returns
the state unchanged; `none` models a runtime panic inside
`distributeRewards`. -/
def posUpdateBlock (now : Nat) (vaddr : Address) (s : PoSState) :
    Option PoSState :=
  match s.validators.lookup vaddr with
  | none => some s
  | some _ =>
    let vs1 :=
      updAssoc vaddr
        (fun w => { w with lastActive := now, totalBlocks := w.totalBlocks + 1 })
        s.validators
    distributeRewards vaddr { s with validators := vs1 }

/-- `PoS.Slash(validator, reason)` from pos.go. -/
def slash (vaddr : Address) (s : PoSState) : Except String PoSState :=
  match s.validators.lookup vaddr with
  | none => .error "validator not found"
  | some v =>
    if v.status = .slashed then
      .error "validator already slashed"
    else
      let slashAmount := (s.config.slashRate * (v.stake + v.totalDelegated)).ediv 1000
      .ok { s with
        validators :=
          updAssoc vaddr
            (fun w => { w with stake := w.stake - slashAmount, status := .slashed })
            s.validators
        totalStake := s.totalStake - slashAmount }

/-- `PoS.GetValidators` from pos.go: all validators sorted by
`Stake + TotalDelegated`, descending. -/
def getValidators (s : PoSState) : List Validator :=
  (s.validators.map Prod.snd).mergeSort
    (fun a b => decide ((b.stake + b.totalDelegated) ≤ (a.stake + a.totalDelegated)))

/-! ## Account state store: `State` in crypto/crypto.go -/

/-- Minimal big-endian byte representation of a natural number, as
produced by `(*big.Int).Bytes()` on the magnitude (`0` gives `[]`). -/
def natToBytesBE : Nat → List Nat
  | 0 => []
  | n + 1 => natToBytesBE ((n + 1) / 256) ++ [(n + 1) % 256]
termination_by n => n
decreasing_by exact Nat.div_lt_self (Nat.succ_pos n) (by omega)

/-- `(*big.Int).Bytes()`: the big-endian bytes of the absolute value. -/
def bytesOfInt (x : Int) : List Nat := natToBytesBE x.natAbs

/-- `(*big.Int).SetBytes(bs)`: interpret bytes as a big-endian natural. -/
def bytesToNat (bs : List Nat) : Nat :=
  bs.foldl (fun acc b => acc * 256 + b % 256) 0

/-- `core.BytesToHash` applied to `(*big.Int).Bytes()` of `x`: keeps the
last (least significant) 32 bytes, i.e. the magnitude modulo `2^256`. -/
def bigToHash (x : Int) : Hash := x.natAbs % 2 ^ 256

/-- `Account` from blockchain.go / crypto.go.  `Balance` is `*big.Int`;
`Storage` is a `map[Hash]Hash` (association list, unique keys). -/
structure Account where
  nonce : Nat
  balance : Int
  codeHash : List Nat
  code : List Nat
  storage : List (Hash × Hash)
deriving DecidableEq, Repr

/-- `Transaction` from blockchain.go.  `From` and `To` are spelled
`fromAddr` and `toAddr` (reserved words in Lean).  `V`, `R`, `S` feed
only signature verification, which the orchestrator model takes as an
oracle. -/
structure Tx where
  nonce : Nat
  gasPrice : Int
  gasLimit : Nat
  toAddr : Option Address
  value : Int
  data : List Nat
  v : Int
  r : Int
  s : Int
  hash : Hash
  fromAddr : Address
deriving DecidableEq, Repr

/-- `BlockHeader` from blockchain.go: the fields read by the modelled
code paths (`ParentHash` and `Number` by `Blockchain.ValidateBlock`,
`Validator` by the consensus engine).  `Number` is `*big.Int`, hence
`Int`.  The remaining header fields (coinbase, roots, difficulty, gas
fields, timestamp, extra data, mix hash, nonce, signature) feed only the
abstract header-hash function and the consensus oracle of the
orchestrator model. -/
structure BlockHeader where
  parentHash : Hash
  number : Int
  validator : Address
deriving DecidableEq, Repr

/-- `Block` from blockchain.go (`Size` is written but never read by the
modelled paths). -/
structure Block where
  header : BlockHeader
  transactions : List Tx
  hash : Hash
deriving DecidableEq, Repr

/-- `Receipt` from part_009 (the fields produced by
`EVM.ExecuteTransaction`; `Logs` is always the empty list there). -/
structure Receipt where
  txHash : Hash
  status : Nat
  gasUsed : Nat
deriving DecidableEq, Repr

/-- The durable leveldb contents touched by the core.  The node uses a
single keyspace; the four key shapes (20-byte address, 32-byte code
hash, address-concatenated storage key, 32-byte block hash, and the
literal key "currentBlock") are modelled as separate maps.  Account
entries hold `Balance.Bytes()` (a magnitude, so `Nat`); storage entries
hold `value.Bytes()`. -/
structure Durable where
  accounts : List (Address × Nat)
  codes : List (Hash × List Nat)
  slots : List ((Address × Hash) × Nat)
  blocks : List (Hash × Block)
  currentPtr : Option Hash
deriving DecidableEq, Repr

/-- The in-memory dirty cache of `State` (crypto.go); the backing store
is passed separately as `Durable`. -/
structure StateDB where
  cache : List (Address × Account)
deriving DecidableEq, Repr

/-- Insert-or-update in an association list (Go map assignment). -/
def setAssoc {α β : Type} [DecidableEq α] (k : α) (v : β) :
    List (α × β) → List (α × β)
  | [] => [(k, v)]
  | (k', v') :: rest =>
    if k' = k then (k, v) :: rest else (k', v') :: setAssoc k v rest

/-- `State.GetAccount(addr)` from crypto.go: return the cached account,
or build a fresh one whose balance is loaded from the store (only the
balance is deserialized; a read error or missing entry leaves it zero)
and insert it into the cache. -/
def getAccount (d : Durable) (st : StateDB) (addr : Address) :
    Account × StateDB :=
  match st.cache.lookup addr with
  | some a => (a, st)
  | none =>
    let a : Account :=
      { nonce := 0
        balance := ((d.accounts.lookup addr).getD 0 : Nat)
        codeHash := []
        code := []
        storage := [] }
    (a, { cache := (addr, a) :: st.cache })

/-- `State.SetNonce` (mutation through the cached account pointer). -/
def setNonce (d : Durable) (st : StateDB) (addr : Address) (n : Nat) :
    StateDB :=
  let st1 := (getAccount d st addr).2
  { cache := updAssoc addr (fun a => { a with nonce := n }) st1.cache }

/-- `State.GetNonce`. -/
def getNonce (d : Durable) (st : StateDB) (addr : Address) : Nat × StateDB :=
  let (a, st1) := getAccount d st addr
  (a.nonce, st1)

/-- `State.GetCode`. -/
def getCode (d : Durable) (st : StateDB) (addr : Address) :
    List Nat × StateDB :=
  let (a, st1) := getAccount d st addr
  (a.code, st1)

/-- `State.GetCodeHash`. -/
def getCodeHash (d : Durable) (st : StateDB) (addr : Address) :
    List Nat × StateDB :=
  let (a, st1) := getAccount d st addr
  (a.codeHash, st1)

/-- `State.GetState(addr, key)` (the zero hash for an absent slot). -/
def getStorage (d : Durable) (st : StateDB) (addr : Address) (key : Hash) :
    Hash × StateDB :=
  let (a, st1) := getAccount d st addr
  ((a.storage.lookup key).getD 0, st1)

/-- `State.SetState(addr, key, value)`. -/
def setStorage (d : Durable) (st : StateDB) (addr : Address)
    (key value : Hash) : StateDB :=
  let st1 := (getAccount d st addr).2
  { cache := updAssoc addr
      (fun a => { a with storage := setAssoc key value a.storage }) st1.cache }

/-- The storage-slot loop inside `State.Commit` for one account: one
`db.Put` per slot, consuming put outcomes `putOk i`, `putOk (i+1)`, ….
Returns the durable store written so far, the next put index, and
whether every put succeeded. -/
def commitSlots (putOk : Nat → Bool) (addr : Address) :
    Nat → List (Hash × Hash) → Durable → Durable × Nat × Bool
  | i, [], d => (d, i, true)
  | i, (k, v) :: rest, d =>
    if putOk i then
      commitSlots putOk addr (i + 1) rest
        { d with slots := setAssoc (addr, k) v d.slots }
    else (d, i, false)

/-- The account loop inside `State.Commit`: per cached account, put the
balance bytes under the address key, then (when the account has code)
the code under its keccak hash, then every storage slot.  The first
failing put aborts with the store written so far. -/
def commitAccounts (putOk : Nat → Bool) (keccak : List Nat → Hash) :
    Nat → List (Address × Account) → Durable → Durable × Nat × Bool
  | _, [], d => (d, 0, true)
  | i, (addr, a) :: rest, d =>
    if putOk i then
      let d1 := { d with accounts := setAssoc addr a.balance.natAbs d.accounts }
      let next :=
        if a.code ≠ [] then
          if putOk (i + 1) then
            some ({ d1 with codes := setAssoc (keccak a.code) a.code d1.codes }, i + 2)
          else none
        else some (d1, i + 1)
      match next with
      | none => (d1, i + 1, false)
      | some (d2, j) =>
        match commitSlots putOk addr j a.storage d2 with
        | (d3, j', true) => commitAccounts putOk keccak j' rest d3
        | (d3, j', false) => (d3, j', false)
    else (d, i, false)

/-- `State.Commit()` from crypto.go: flush every cached account to the
store; on success clear the cache, on a put failure return the error
with the cache intact and the puts so far durably applied.  `putOk`
gives each `db.Put` outcome in call order. -/
def stateCommit (putOk : Nat → Bool) (keccak : List Nat → Hash)
    (d : Durable) (st : StateDB) : Durable × StateDB × Bool :=
  match commitAccounts putOk keccak 0 st.cache d with
  | (d', _, true) => (d', { cache := [] }, true)
  | (d', _, false) => (d', st, false)

/-! ## Bytecode interpreter: the `vm` package (part_001) -/

/-- `Stack.pop` from part_001: popping an empty stack returns the zero
value instead of erroring.  The Go stack appends at the slice end; the
model keeps the top of stack at the list head. -/
def stackPop : List Int → Int × List Int
  | [] => (0, [])
  | x :: rest => (x, rest)

/-- `Stack.peek` from part_001 (zero on an empty stack). -/
def stackPeek : List Int → Int
  | [] => 0
  | x :: _ => x

/-- Go `copy(dst[off:], src)`: overwrite `dst` from index `off` with as
many bytes of `src` as fit. -/
def listCopyAt : List Nat → Nat → List Nat → List Nat
  | m, _, [] => m
  | [], _, _ => []
  | _ :: ms, 0, v :: vs => v :: listCopyAt ms 0 vs
  | m :: ms, o + 1, vs => m :: listCopyAt ms o vs

/-- `Memory.Set(offset, size, value)` from part_001.  `offset + size` is
`uint64` arithmetic (wraps); the store grows zero-filled up to `end`;
`copy(m.store[offset:], value)` panics (`none`) when `offset` exceeds
the (possibly grown) store length, which happens exactly when
`offset + size` wrapped. -/
def memSet (offset size : Nat) (value : List Nat) (mem : List Nat) :
    Option (List Nat) :=
  let e := (offset + size) % 2 ^ 64
  let mem1 := if mem.length < e
    then mem ++ List.replicate (e - mem.length) 0 else mem
  if mem1.length < offset then none
  else some (listCopyAt mem1 offset value)

/-- `Memory.Get(offset, size)` from part_001: read `size` bytes starting
at `offset`, zero-padded past the end of the store (`offset + size` in
`uint64` arithmetic). -/
def memGet (offset size : Nat) (mem : List Nat) : List Nat :=
  let e0 := (offset + size) % 2 ^ 64
  let e := if mem.length < e0 then mem.length else e0
  if e ≤ offset then List.replicate size 0
  else ((mem.drop offset).take (e - offset)) ++
    List.replicate (size - (e - offset)) 0

/-- The typed failure outcomes of `Interpreter.Run`: the Go errors
"out of gas", "invalid opcode: %d" and "insufficient data for PUSH%d". -/
inductive VMErr
  | outOfGas
  | invalidOpcode (op : Nat)
  | pushShort (n : Nat)
deriving DecidableEq, Repr

/-- Outcome of one opcode handler: `ok consumed stack mem st` (where
`consumed` is the number of immediate code bytes consumed — nonzero only
for `PUSHN`), a returned Go error, or a runtime panic.  No handler in
part_001 writes `contract.Gas`; the interpreter loop is its only
writer, so handlers receive the gas value read-only (for `GAS`). -/
inductive OpOut
  | ok (consumed : Nat) (stack : List Int) (mem : List Nat) (st : StateDB)
  | fail (e : VMErr)
  | panicked
deriving Repr

/-- `GasTable.getGasCost` from part_001 with the `defaultGasTable`
constants, written over the opcode byte ranges of the source constants
(`PUSHN = 0x60 + N - 1`, `DUPN = 0x80 + N - 1`, `SWAPN = 0x90 + N - 1`). -/
def gasCost (op : Nat) : Nat :=
  if op = 0x00 then 0
  else if 0x01 ≤ op ∧ op ≤ 0x09 then 3
  else if 0x10 ≤ op ∧ op ≤ 0x15 then 3
  else if 0x16 ≤ op ∧ op ≤ 0x1a then 3
  else if 0x1b ≤ op ∧ op ≤ 0x1d then 3
  else if op = 0x50 then 2
  else if 0x51 ≤ op ∧ op ≤ 0x53 then 3
  else if op = 0x54 then 800
  else if op = 0x55 then 20000
  else if 0x56 ≤ op ∧ op ≤ 0x5a then 2
  else if 0x60 ≤ op ∧ op ≤ 0x67 then 3
  else if 0x68 ≤ op ∧ op ≤ 0x6f then 5
  else if 0x70 ≤ op ∧ op ≤ 0x77 then 8
  else if 0x78 ≤ op ∧ op ≤ 0x7f then 10
  else if 0x80 ≤ op ∧ op ≤ 0x87 then 3
  else if 0x88 ≤ op ∧ op ≤ 0x8f then 5
  else if 0x90 ≤ op ∧ op ≤ 0x97 then 3
  else if 0x98 ≤ op ∧ op ≤ 0x9f then 5
  else if op = 0xf3 then 0
  else if op = 0xfd then 0
  else 2

/-- Whether `newJumpTable` assigns an `execute` function to the opcode
(the loop reports "invalid opcode" otherwise — note `STOP`, `RETURN`,
`MOD`, `DUP2`–`DUP16`, `SWAP2`–`SWAP16`, … have no handler). -/
def hasOp (op : Nat) : Bool :=
  op = 0x01 ∨ op = 0x02 ∨ op = 0x03 ∨ op = 0x04 ∨
  op = 0x10 ∨ op = 0x11 ∨ op = 0x14 ∨ op = 0x15 ∨
  op = 0x16 ∨ op = 0x17 ∨ op = 0x18 ∨ op = 0x19 ∨
  op = 0x50 ∨ op = 0x80 ∨ op = 0x90 ∨
  op = 0x51 ∨ op = 0x52 ∨ op = 0x53 ∨
  op = 0x54 ∨ op = 0x55 ∨
  op = 0x56 ∨ op = 0x57 ∨ op = 0x58 ∨ op = 0x59 ∨ op = 0x5a ∨
  (0x60 ≤ op ∧ op ≤ 0x7f)

/-- `opDiv` from part_001: division by zero pushes 0 rather than
trapping (Go `big.Int.Div` is Euclidean division, `Int.ediv`). -/
def opDiv (stack : List Int) : List Int :=
  let (x, s1) := stackPop stack
  let (y, s2) := stackPop s1
  if y = 0 then 0 :: s2 else x.ediv y :: s2

/-- The opcode handlers of part_001 (the entries `newJumpTable`
assigns).  `code` is the remaining code after the opcode byte, `gas` the
gas after the loop subtracted the opcode cost.  Arithmetic is on
`big.Int`, so unbounded `Int`; offsets pass through
`(*big.Int).Uint64()`. -/
def execOp (d : Durable) (selfAddr : Address) (gas : Nat) (op : Nat)
    (code : List Nat) (stack : List Int) (mem : List Nat) (st : StateDB) :
    OpOut :=
  if op = 0x01 then
    let (x, s1) := stackPop stack
    let (y, s2) := stackPop s1
    .ok 0 ((x + y) :: s2) mem st
  else if op = 0x02 then
    let (x, s1) := stackPop stack
    let (y, s2) := stackPop s1
    .ok 0 ((x * y) :: s2) mem st
  else if op = 0x03 then
    let (x, s1) := stackPop stack
    let (y, s2) := stackPop s1
    .ok 0 ((x - y) :: s2) mem st
  else if op = 0x04 then
    .ok 0 (opDiv stack) mem st
  else if op = 0x10 then
    let (x, s1) := stackPop stack
    let (y, s2) := stackPop s1
    .ok 0 ((if x < y then 1 else 0) :: s2) mem st
  else if op = 0x11 then
    let (x, s1) := stackPop stack
    let (y, s2) := stackPop s1
    .ok 0 ((if y < x then 1 else 0) :: s2) mem st
  else if op = 0x14 then
    let (x, s1) := stackPop stack
    let (y, s2) := stackPop s1
    .ok 0 ((if x = y then 1 else 0) :: s2) mem st
  else if op = 0x15 then
    let (x, s1) := stackPop stack
    .ok 0 ((if x = 0 then 1 else 0) :: s1) mem st
  else if op = 0x16 then
    let (x, s1) := stackPop stack
    let (y, s2) := stackPop s1
    .ok 0 (Int.land x y :: s2) mem st
  else if op = 0x17 then
    let (x, s1) := stackPop stack
    let (y, s2) := stackPop s1
    .ok 0 (Int.lor x y :: s2) mem st
  else if op = 0x18 then
    let (x, s1) := stackPop stack
    let (y, s2) := stackPop s1
    .ok 0 (Int.xor x y :: s2) mem st
  else if op = 0x19 then
    let (x, s1) := stackPop stack
    .ok 0 (Int.lnot x :: s1) mem st
  else if op = 0x50 then
    .ok 0 (stackPop stack).2 mem st
  else if op = 0x80 then
    .ok 0 (stackPeek stack :: stack) mem st
  else if op = 0x90 then
    let (x, s1) := stackPop stack
    let (y, s2) := stackPop s1
    .ok 0 (y :: x :: s2) mem st
  else if op = 0x51 then
    let (x, s1) := stackPop stack
    let off := goUint64OfInt x
    .ok 0 ((bytesToNat (memGet off 32 mem) : Nat) :: s1) mem st
  else if op = 0x52 then
    let (off, s1) := stackPop stack
    let (val, s2) := stackPop s1
    match memSet (goUint64OfInt off) 32 (bytesOfInt val) mem with
    | none => .panicked
    | some m' => .ok 0 s2 m' st
  else if op = 0x53 then
    let (off, s1) := stackPop stack
    let (val, s2) := stackPop s1
    let bs := bytesOfInt val
    if bs.isEmpty then .panicked
    else
      match memSet (goUint64OfInt off) 1 (bs.take 1) mem with
      | none => .panicked
      | some m' => .ok 0 s2 m' st
  else if op = 0x54 then
    let (x, s1) := stackPop stack
    let (v, st1) := getStorage d st selfAddr (bigToHash x)
    .ok 0 ((v : Nat) :: s1) mem st1
  else if op = 0x55 then
    let (x, s1) := stackPop stack
    let (val, s2) := stackPop s1
    .ok 0 s2 mem (setStorage d st selfAddr (bigToHash x) (bigToHash val))
  else if op = 0x56 ∨ op = 0x57 then
    .ok 0 stack mem st
  else if op = 0x58 then
    .ok 0 ((code.length : Int) :: stack) mem st
  else if op = 0x59 then
    .ok 0 ((mem.length : Int) :: stack) mem st
  else if op = 0x5a then
    .ok 0 (int64OfUint64 gas :: stack) mem st
  else if 0x60 ≤ op ∧ op ≤ 0x7f then
    let n := op - 0x60 + 1
    if code.length < n then .fail (.pushShort n)
    else .ok n ((bytesToNat (code.take n) : Nat) :: stack) mem st
  else
    .fail (.invalidOpcode op)

/-- Result of `Interpreter.Run`: normal completion (with the remaining
gas, final stack/memory/state — the memory becomes `ReturnData`), a
returned Go error with the gas and state at that point, or a runtime
panic. -/
inductive RunOut
  | done (gas : Nat) (stack : List Int) (mem : List Nat) (st : StateDB)
  | failed (e : VMErr) (gas : Nat) (st : StateDB)
  | panicked
deriving Repr

/-- The fetch–decode–execute loop of `Interpreter.Run` from part_001:
while code remains, consume the opcode byte; charge its static gas cost
first (out-of-gas when `gas < cost`, with no partial execution and the
gas left untouched); report "invalid opcode" for table entries with no
handler; run the handler; stop on `STOP`/`RETURN` (in the source that
check is dead, since neither opcode has a handler). -/
def runLoop (d : Durable) (selfAddr : Address) :
    List Nat → Nat → List Int → List Nat → StateDB → RunOut
  | [], gas, stack, mem, st => .done gas stack mem st
  | op :: rest, gas, stack, mem, st =>
    let cost := gasCost op
    if gas < cost then .failed .outOfGas gas st
    else
      let g := gas - cost
      if hasOp op then
        match execOp d selfAddr g op rest stack mem st with
        | .fail e => .failed e g st
        | .panicked => .panicked
        | .ok k stk m st2 =>
          if op = 0x00 ∨ op = 0xf3 then .done g stk m st2
          else runLoop d selfAddr (rest.drop k) g stk m st2
      else .failed (.invalidOpcode op) g st
termination_by code => code.length
decreasing_by simp [List.length_drop]; omega

/-- `EVM.ExecuteTransaction(tx)` from part_001.  `*tx.To` is
dereferenced with no nil check, so a contract-creation transaction
(`To = nil`) has no defined result (`none`, a nil-pointer panic in Go).
On a handler/loop error the receipt carries status 0 and
`GasUsed = tx.GasLimit - contract.Gas` (uint64 subtraction) together
with the error; on success status 1 and the sender nonce is
incremented. -/
def evmExecuteTransaction (d : Durable) (st : StateDB) (tx : Tx) :
    Option (Receipt × StateDB × Option VMErr) :=
  match tx.toAddr with
  | none => none
  | some dest =>
    let (code, st1) := getCode d st dest
    let (_, st2) := getCodeHash d st1 dest
    match runLoop d dest code tx.gasLimit [] [] st2 with
    | .panicked => none
    | .failed e g st3 =>
      some ({ txHash := tx.hash, status := 0
              gasUsed := usub64 tx.gasLimit g }, st3, some e)
    | .done g _ _ st3 =>
      let (n, st4) := getNonce d st3 tx.fromAddr
      some ({ txHash := tx.hash, status := 1
              gasUsed := usub64 tx.gasLimit g },
        setNonce d st4 tx.fromAddr ((n + 1) % 2 ^ 64), none)

/-! ## Blockchain orchestrator: `core` package (part_010) -/

/-- The external/nondeterministic inputs of one orchestrator operation:
the canonical header hash (`Block.ComputeHash`, keccak of the RLP
header), the byte hash used for code keys, the ECDSA signature
verification verdict of `crypto.VerifySignature`, the verdict of
`consensus.ValidateBlock` (pos.go: it checks the randomly selected
producer and the block signature, and reads no parent linkage), the
`db.Put` outcomes during `State.Commit` (in call order) and during
`writeBlock`, and the wall clock. -/
structure OracleEnv where
  hashFn : BlockHeader → Hash
  keccak : List Nat → Hash
  sigOk : Tx → Bool
  consensusOk : Block → Bool
  commitPutOk : Nat → Bool
  putBlockOk : Bool
  putPtrOk : Bool
  now : Nat

/-- The `core.Config` fields read by the modelled operations. -/
structure BCConfig where
  minGasPrice : Int
deriving DecidableEq, Repr

/-- `Blockchain` from part_010: durable store, account-state cache, the
in-memory tip `currentBlock`, the block cache, the transaction pool
(held abstractly as the list of admitted transactions) and the
consensus engine state. -/
structure BC where
  durable : Durable
  state : StateDB
  currentBlock : Block
  blockCache : List (Hash × Block)
  txPool : List Tx
  pos : PoSState
  config : BCConfig

/-- `Blockchain.ValidateTransaction(tx)` from part_010: signature check,
exact nonce equality, balance at least
`tx.GasPrice * int64(tx.GasLimit) + tx.Value` (note the Go `int64`
conversion of the `uint64` gas limit), and gas price at least
`config.MinGasPrice` — in that order.  `GetAccount` populates the state
cache, so the (possibly updated) orchestrator state is returned too. -/
def validateTransaction (env : OracleEnv) (bc : BC) (tx : Tx) :
    Except String Unit × BC :=
  if ¬ env.sigOk tx then (.error "invalid signature", bc)
  else
    let (acct, st1) := getAccount bc.durable bc.state tx.fromAddr
    let bc1 := { bc with state := st1 }
    if tx.nonce ≠ acct.nonce then (.error "invalid nonce", bc1)
    else
      let cost := tx.gasPrice * int64OfUint64 tx.gasLimit + tx.value
      if acct.balance < cost then (.error "insufficient balance", bc1)
      else if tx.gasPrice < bc.config.minGasPrice then
        (.error "gas price too low", bc1)
      else (.ok (), bc1)

/-- `Blockchain.AddTransaction(tx)` from part_010: validate, and only on
success add to the pool and signal the processor.  The body of
`TxPool.Add` is not part of the sources; modelled from the spec:
"on success inserts into the pending pool". -/
def addTransaction (env : OracleEnv) (bc : BC) (tx : Tx) :
    Except String Unit × BC :=
  match validateTransaction env bc tx with
  | (.error e, bc1) => (.error e, bc1)
  | (.ok _, bc1) => (.ok (), { bc1 with txPool := tx :: bc1.txPool })

/-- `Blockchain.GetBlockByHash(hash)` from part_010: serve from the
block cache, else read from the database (caching the hit); a missing
key is `ErrBlockNotFound` (`none`). -/
def getBlockByHash (bc : BC) (h : Hash) : Option Block × BC :=
  match bc.blockCache.lookup h with
  | some b => (some b, bc)
  | none =>
    match bc.durable.blocks.lookup h with
    | none => (none, bc)
    | some b => (some b, { bc with blockCache := (h, b) :: bc.blockCache })

/-- The transaction loop at the end of `Blockchain.ValidateBlock`:
validate each included transaction, aborting on the first error. -/
def validateTxList (env : OracleEnv) (bc : BC) :
    List Tx → Except String Unit × BC
  | [] => (.ok (), bc)
  | t :: ts =>
    match validateTransaction env bc t with
    | (.error e, bc1) => (.error e, bc1)
    | (.ok _, bc1) => validateTxList env bc1 ts

/-- `Blockchain.ValidateBlock(block)` from part_010, in source order:
recomputed hash must equal the stored hash; when `Number > 0` the parent
block must exist (by hash, cache or database); `consensus.ValidateBlock`
must accept; every included transaction must validate.  The parent is
only required to exist — it is not compared with `currentBlock`, and
`Number` is not compared with the parent number. -/
def validateBlock (env : OracleEnv) (bc : BC) (block : Block) :
    Except String Unit × BC :=
  if block.hash ≠ env.hashFn block.header then (.error "invalid block", bc)
  else
    let step2 : Except String Unit × BC :=
      if 0 < block.header.number then
        match getBlockByHash bc block.header.parentHash with
        | (none, bc1) => (.error "parent block not found", bc1)
        | (some _, bc1) => (.ok (), bc1)
      else (.ok (), bc)
    match step2 with
    | (.error e, bc1) => (.error e, bc1)
    | (.ok _, bc1) =>
      if ¬ env.consensusOk block then
        (.error "consensus validation failed", bc1)
      else validateTxList env bc1 block.transactions

/-- Result of `Blockchain.ExecuteTransactions`: the VM mutates the
state cache as it goes, so the partially updated state survives a
midway error (`fail`); `panicked` propagates a VM runtime panic. -/
inductive ExecTxsOut
  | ok (st : StateDB)
  | fail (st : StateDB)
  | panicked

/-- `Blockchain.ExecuteTransactions(txs)` from part_010: run each
transaction through `EVM.ExecuteTransaction`; a transaction error makes
the whole block fail (the receipts it collects are dropped by
`ProcessBlock`). -/
def executeTxList (d : Durable) (st : StateDB) : List Tx → ExecTxsOut
  | [] => .ok st
  | t :: ts =>
    match evmExecuteTransaction d st t with
    | none => .panicked
    | some (_, st1, some _) => .fail st1
    | some (_, st1, none) => executeTxList d st1 ts

/-- Result of `Blockchain.ProcessBlock`: success or error, each with the
resulting in-memory/durable state (Go mutates `bc` in place), or a
runtime panic. -/
inductive PBOut
  | ok (bc : BC)
  | err (e : String) (bc : BC)
  | panicked

/-- `Blockchain.ProcessBlock(block)` from part_010, in source order
under the orchestrator lock: validate; execute all transactions;
`State.Commit`; `writeBlock` (put the block under its hash, then put the
`"currentBlock"` pointer, then cache the block); only then set
`currentBlock`; finally `consensus.UpdateBlock`.  Serialization
(`rlp.EncodeToBytes`) is modelled as exact; each `db.Put` outcome comes
from the oracle environment. -/
def processBlock (env : OracleEnv) (bc : BC) (block : Block) : PBOut :=
  match validateBlock env bc block with
  | (.error e, bc1) => .err e bc1
  | (.ok _, bc1) =>
    match executeTxList bc1.durable bc1.state block.transactions with
    | .panicked => .panicked
    | .fail st2 => .err "failed to execute transactions" { bc1 with state := st2 }
    | .ok st2 =>
      match stateCommit env.commitPutOk env.keccak bc1.durable st2 with
      | (d3, st3, false) =>
        .err "failed to commit state" { bc1 with durable := d3, state := st3 }
      | (d3, st3, true) =>
        if ¬ env.putBlockOk then
          .err "failed to write block" { bc1 with durable := d3, state := st3 }
        else
          let d4 := { d3 with blocks := setAssoc block.hash block d3.blocks }
          if ¬ env.putPtrOk then
            .err "failed to update current block"
              { bc1 with durable := d4, state := st3 }
          else
            let d5 := { d4 with currentPtr := some block.hash }
            let bc2 := { bc1 with
              durable := d5
              state := st3
              blockCache := (block.hash, block) :: bc1.blockCache
              currentBlock := block }
            match posUpdateBlock env.now block.header.validator bc2.pos with
            | none => .panicked
            | some pos2 => .ok { bc2 with pos := pos2 }

/-- The resulting orchestrator state of a `ProcessBlock` outcome
(`none` after a panic). -/
def pbState : PBOut → Option BC
  | .ok bc => some bc
  | .err _ bc => some bc
  | .panicked => none

/-- Whether a `ProcessBlock` outcome is an error return. -/
def pbIsErr : PBOut → Bool
  | .err _ _ => true
  | _ => false

/-! ## Helper lemmas on association lists -/

theorem lookup_some_mem {β : Type} {l : List (Nat × β)} {a : Nat} {b : β}
    (h : l.lookup a = some b) : (a, b) ∈ l := by
  induction l with
  | nil => simp [List.lookup] at h
  | cons p rest ih =>
    rw [List.lookup] at h
    by_cases hp : a == p.1
    · rw [hp] at h
      simp only [Option.some.injEq] at h
      simp only [beq_iff_eq] at hp
      subst hp h
      exact List.mem_cons_self _ _
    · rw [Bool.not_eq_true] at hp
      rw [hp] at h
      exact List.mem_cons_of_mem _ (ih h)

theorem lookup_updAssoc_self {β : Type} (k : Nat) (f : β → β)
    (l : List (Nat × β)) :
    (updAssoc k f l).lookup k = (l.lookup k).map f := by
  induction l with
  | nil => simp [updAssoc, List.lookup]
  | cons p rest ih =>
    obtain ⟨k', v⟩ := p
    by_cases hk : k' = k
    · subst hk
      simp [updAssoc, List.lookup]
    · simp [updAssoc, hk, List.lookup,
        show ¬ (k == k') from by simp [Ne.symm hk], ih]

theorem lookup_setAssoc_self {β : Type} (k : Nat) (v : β)
    (l : List (Nat × β)) :
    (setAssoc k v l).lookup k = some v := by
  induction l with
  | nil => simp [setAssoc, List.lookup]
  | cons p rest ih =>
    obtain ⟨k', v'⟩ := p
    by_cases hk : k' = k
    · subst hk
      simp [setAssoc, List.lookup]
    · simp [setAssoc, hk, List.lookup,
        show ¬ (k == k') from by simp [Ne.symm hk], ih]

/-! ## Claim theorems -/

/-- C9: the interpreter stack and arithmetic are total on the two
documented edge cases — `Stack.pop` on an empty stack returns zero (and
no error), and executing the `DIV` opcode with a zero divisor pushes 0
(the handler always returns a success outcome, so neither condition by
itself aborts bytecode execution). -/
theorem c9_pop_empty_and_div_by_zero_total :
    stackPop [] = ((0 : Int), []) ∧
    (∀ (x : Int) (s : List Int), opDiv (x :: 0 :: s) = 0 :: s) ∧
    opDiv [] = [0] ∧
    (∀ d a g code stack mem st,
      execOp d a g 0x04 code stack mem st = .ok 0 (opDiv stack) mem st) :=
  ⟨rfl, fun _ _ => rfl, rfl, fun _ _ _ _ _ _ _ => rfl⟩

/-- C10: `EVM.ExecuteTransaction` dereferences `tx.To` with no nil check
and never dispatches to `CreateContract`; for a transaction with
`To = nil` (the contract-creation signal) it has no defined result, so
`tx.To ≠ nil` is a precondition of the transaction-execution path. -/
theorem c10_execute_transaction_requires_to (d : Durable) (st : StateDB)
    (tx : Tx) (h : tx.toAddr = none) :
    evmExecuteTransaction d st tx = none := by
  unfold evmExecuteTransaction
  rw [h]

/-- C10 witness: a concrete contract-creation transaction has no defined
`ExecuteTransaction` result. -/
theorem c10_witness :
    evmExecuteTransaction ⟨[], [], [], [], none⟩ ⟨[]⟩
      ⟨0, 0, 0, none, 0, [], 0, 0, 0, 0, 0⟩ = none :=
  c10_execute_transaction_requires_to _ _ _ rfl

/-- C8: the claim that reward distribution never divides by zero fails
on the code: the validator-reward division by `Stake + TotalDelegated`
in `distributeRewards` is unguarded (only the delegator-reward division
is guarded by `totalDelegated == 0`).  A zero divisor is reachable:
with `NewPoS(0, 10)` (minimum stake 0), `RegisterValidator(5, 0, 0, pk)`
succeeds and yields an Active validator with stake 0 and no delegation;
`UpdateBlock` on a block produced by validator 5 then divides by zero
(`none`, a `big.Int.Div` runtime panic in Go), and 0 occurs among the
divisors used by the computation. -/
theorem c8_reward_division_by_zero_reachable :
    registerValidator 0 5 0 0 (newPoS 0 10) =
      .ok { validators := [(5,
              { address := 5, stake := 0, totalDelegated := 0,
                commission := 0, status := .active, lastActive := 0,
                totalBlocks := 0, rewards := 0 })]
            delegators := []
            totalStake := 0
            config := (newPoS 0 10).config } ∧
    (0 : Int) ∈ rewardDivisors
      { validators := [(5,
          { address := 5, stake := 0, totalDelegated := 0,
            commission := 0, status := .active, lastActive := 0,
            totalBlocks := 0, rewards := 0 })]
        delegators := []
        totalStake := 0
        config := (newPoS 0 10).config } 5 ∧
    posUpdateBlock 1 5
      { validators := [(5,
          { address := 5, stake := 0, totalDelegated := 0,
            commission := 0, status := .active, lastActive := 0,
            totalBlocks := 0, rewards := 0 })]
        delegators := []
        totalStake := 0
        config := (newPoS 0 10).config } = none := by
  refine ⟨rfl, ?_, rfl⟩
  decide

theorem selectWalk_mem (A : List Address) (draw : Int) :
    ∀ (l : List (Validator × Int)) (cum : Int) (fb : Address),
      fb ∈ A → (∀ p ∈ l, p.1.address ∈ A) → selectWalk draw cum fb l ∈ A := by
  intro l
  induction l with
  | nil =>
    intro cum fb hfb _
    simpa [selectWalk] using hfb
  | cons p rest ih =>
    intro cum fb hfb hl
    obtain ⟨v, w⟩ := p
    rw [selectWalk]
    by_cases h : draw < cum + w
    · simpa [h] using hl (v, w) (List.mem_cons_self _ _)
    · simp only [h, if_false]
      exact ih _ _ hfb (fun q hq => hl q (List.mem_cons_of_mem _ hq))

/-- C7 counterexample: the claim that with exactly one Active validator
`SelectValidator` returns that validator for every draw fails on the
code at a registry with a single Active validator of zero weight
(stake 0, nothing delegated, reachable when the configured minimum
stake is 0): the total weight is zero and the zero address is returned
instead of the validator address 7. -/
theorem c7_cex :
    (getActiveValidators
      { validators := [(7,
          { address := 7, stake := 0, totalDelegated := 0, commission := 0,
            status := .active, lastActive := 0, totalBlocks := 0,
            rewards := 0 })]
        delegators := []
        totalStake := 0
        config := (newPoS 0 1).config }).map (fun v => v.address) = [7] ∧
    selectValidator 0
      { validators := [(7,
          { address := 7, stake := 0, totalDelegated := 0, commission := 0,
            status := .active, lastActive := 0, totalBlocks := 0,
            rewards := 0 })]
        delegators := []
        totalStake := 0
        config := (newPoS 0 1).config } = 0 ∧
    (0 : Address) ≠ 7 := by
  refine ⟨rfl, rfl, by decide⟩

/-- C7 (amended): for every registry state and every random draw, the
address returned by `SelectValidator` is the zero address or the address
of an Active validator (so no Inactive or Slashed validator address is
ever produced, barring a validator registered at the zero address); and
whenever exactly one validator is Active and its weight
`stake + totalDelegated` is positive, that validator is selected for
every draw.  The zero address is returned exactly when no validator is
Active or the total Active weight is zero. -/
theorem c7_select_validator_amended (randNum : Nat) (s : PoSState) :
    (selectValidator randNum s = 0 ∨
      selectValidator randNum s ∈
        (getActiveValidators s).map (fun v => v.address)) ∧
    (∀ v, getActiveValidators s = [v] → 0 < v.stake + v.totalDelegated →
      selectValidator randNum s = v.address) := by
  constructor
  · unfold selectValidator
    dsimp only
    split
    · exact Or.inl rfl
    · split
      · exact Or.inl rfl
      · right
        refine selectWalk_mem _ _ _ _ _ ?_ ?_
        · rename_i hne _
          cases hA : getActiveValidators s with
          | nil => rw [hA] at hne; simp at hne
          | cons a as =>
            exact List.mem_map_of_mem _ (List.mem_cons_self _ _)
        · intro p hp
          rw [List.mem_map] at hp
          obtain ⟨u, hu, hup⟩ := hp
          rw [← hup]
          exact List.mem_map_of_mem _ hu
  · intro v hv hw
    unfold selectValidator
    rw [hv]
    have hlt : (randNum : Int).emod (v.stake + v.totalDelegated) <
        v.stake + v.totalDelegated := Int.emod_lt_of_pos _ hw
    simp [selectWalk, hw.ne', hlt]

/-- C7 witness: at a registry with a single Active validator of
positive weight, every draw selects it, and the result is among the
Active addresses. -/
theorem c7_witness :
    selectValidator 12345
      { validators := [(7,
          { address := 7, stake := 40, totalDelegated := 2, commission := 0,
            status := .active, lastActive := 0, totalBlocks := 0,
            rewards := 0 })]
        delegators := []
        totalStake := 42
        config := (newPoS 1 1).config } = 7 :=
  (c7_select_validator_amended 12345 _).2
    { address := 7, stake := 40, totalDelegated := 2, commission := 0,
      status := .active, lastActive := 0, totalBlocks := 0, rewards := 0 }
    (by decide) (by decide)

theorem lookup_isSome_of_mem {β : Type} {l : List (Nat × β)} {p : Nat × β}
    (h : p ∈ l) : (l.lookup p.1).isSome := by
  induction l with
  | nil => simp at h
  | cons q rest ih =>
    rw [List.lookup]
    by_cases hq : p.1 == q.1
    · rw [hq]
      rfl
    · rw [Bool.not_eq_true] at hq
      rw [hq]
      rcases List.mem_cons.mp h with h1 | h2
      · rw [h1] at hq
        simp at hq
      · exact ih h2

/-- C6 counterexample: the claim that `RegisterValidator` fails exactly
when the stake is too low, the active-validator set is at capacity, or
the address is already registered, fails on the code: the capacity check
counts every registered validator regardless of status.  With
`MaxValidators = 1` and a single Slashed validator registered, a fresh
address with sufficient stake is rejected although the active set is
empty, the stake meets the minimum and the address is unregistered. -/
theorem c6_cex :
    registerValidator 0 2 50 0
      { validators := [(1,
          { address := 1, stake := 100, totalDelegated := 0, commission := 0,
            status := .slashed, lastActive := 0, totalBlocks := 0,
            rewards := 0 })]
        delegators := []
        totalStake := 100
        config := { minStakeAmount := 10, maxValidators := 1,
                    unbondingPeriod := 0, rewardRate := 0, slashRate := 0,
                    commissionRate := 0 } } = .error "maximum validators reached" ∧
    ¬ ((50 : Int) < 10) ∧
    (getActiveValidators
      { validators := [(1,
          { address := 1, stake := 100, totalDelegated := 0, commission := 0,
            status := .slashed, lastActive := 0, totalBlocks := 0,
            rewards := 0 })]
        delegators := []
        totalStake := 100
        config := { minStakeAmount := 10, maxValidators := 1,
                    unbondingPeriod := 0, rewardRate := 0, slashRate := 0,
                    commissionRate := 0 } }).length < 1 ∧
    ([(1,
        ({ address := 1, stake := 100, totalDelegated := 0, commission := 0,
           status := .slashed, lastActive := 0, totalBlocks := 0,
           rewards := 0 } : Validator))].lookup 2) = none := by
  exact ⟨rfl, by decide, by decide, rfl⟩

/-- C6 (amended): `RegisterValidator` fails exactly when the stake is
below the configured minimum, the number of registered validators of any
status has reached `MaxValidators`, or the address is already
registered; on success it stores an Active validator with the given
stake, zero delegations, blocks and rewards, and adds the stake to the
global total; and a rejected address that was not already registered
does not appear in `GetValidators()` (the registry is unchanged). -/
theorem c6_register_validator_amended (now : Nat) (addr : Address)
    (stake : Int) (comm : Nat) (s : PoSState) :
    ((∃ e, registerValidator now addr stake comm s = .error e) ↔
      (stake < s.config.minStakeAmount ∨
       s.config.maxValidators ≤ s.validators.length ∨
       (s.validators.lookup addr).isSome)) ∧
    (∀ s', registerValidator now addr stake comm s = .ok s' →
      s'.validators.lookup addr = some
        { address := addr, stake := stake, totalDelegated := 0,
          commission := comm, status := .active, lastActive := now,
          totalBlocks := 0, rewards := 0 } ∧
      s'.totalStake = s.totalStake + stake) ∧
    ((∀ p ∈ s.validators, p.2.address = p.1) →
      s.validators.lookup addr = none →
      addr ∉ (getValidators s).map (fun v => v.address)) := by
  refine ⟨?_, ?_, ?_⟩
  · unfold registerValidator
    split_ifs with h1 h2 h3
    · exact ⟨fun _ => Or.inl h1, fun _ => ⟨_, rfl⟩⟩
    · exact ⟨fun _ => Or.inr (Or.inl h2), fun _ => ⟨_, rfl⟩⟩
    · exact ⟨fun _ => Or.inr (Or.inr h3), fun _ => ⟨_, rfl⟩⟩
    · constructor
      · rintro ⟨e, he⟩
        exact absurd he (by simp)
      · rintro (h | h | h)
        · exact absurd h h1
        · exact absurd h h2
        · exact absurd h h3
  · intro s' hs
    unfold registerValidator at hs
    split_ifs at hs
    rw [Except.ok.injEq] at hs
    subst hs
    exact ⟨by simp [List.lookup], rfl⟩
  · intro hk hnone hmem
    rw [List.mem_map] at hmem
    obtain ⟨v, hv, hva⟩ := hmem
    rw [getValidators, List.mem_mergeSort, List.mem_map] at hv
    obtain ⟨p, hp, hpv⟩ := hv
    have hsome : (s.validators.lookup p.1).isSome := lookup_isSome_of_mem hp
    have hp1 : p.1 = addr := by rw [← hk p hp, hpv, hva]
    rw [hp1, hnone] at hsome
    simp at hsome

/-- C6 witness: registering a fresh address with sufficient stake in an
empty registry stores the expected Active validator and adds the stake
to the global total. -/
theorem c6_witness :
    (({ validators := [(9,
          { address := 9, stake := 20, totalDelegated := 0,
            commission := 100, status := .active, lastActive := 3,
            totalBlocks := 0, rewards := 0 })]
        delegators := []
        totalStake := 20
        config := { minStakeAmount := 10, maxValidators := 5,
                    unbondingPeriod := 0, rewardRate := 0, slashRate := 0,
                    commissionRate := 0 } } : PoSState).validators.lookup 9 =
      some { address := 9, stake := 20, totalDelegated := 0,
             commission := 100, status := .active, lastActive := 3,
             totalBlocks := 0, rewards := 0 }) ∧
    (({ validators := [(9,
          { address := 9, stake := 20, totalDelegated := 0,
            commission := 100, status := .active, lastActive := 3,
            totalBlocks := 0, rewards := 0 })]
        delegators := []
        totalStake := 20
        config := { minStakeAmount := 10, maxValidators := 5,
                    unbondingPeriod := 0, rewardRate := 0, slashRate := 0,
                    commissionRate := 0 } } : PoSState).totalStake = 0 + 20) :=
  (c6_register_validator_amended 3 9 20 100
      { validators := []
        delegators := []
        totalStake := 0
        config := { minStakeAmount := 10, maxValidators := 5,
                    unbondingPeriod := 0, rewardRate := 0, slashRate := 0,
                    commissionRate := 0 } }).2.1 _ (by rfl)

theorem isUnbondingTo_true {validator : Address} {d : Delegation}
    (hd : d.validator = validator ∧ d.status = .unbonding) :
    isUnbondingTo validator d = true := by
  simp [isUnbondingTo, hd.1, hd.2]

theorem isUnbondingTo_false {validator : Address} {d : Delegation}
    (hd : ¬ (d.validator = validator ∧ d.status = .unbonding)) :
    isUnbondingTo validator d = false := by
  simp only [isUnbondingTo]
  exact decide_eq_false hd

theorem completeAux_none {now : Nat} {validator : Address}
    {ds : List Delegation}
    (h : ds.find? (isUnbondingTo validator) = none) :
    completeAux now validator ds = .error "unbonding delegation not found" := by
  induction ds with
  | nil => rfl
  | cons d rest ih =>
    rw [List.find?_cons] at h
    by_cases hd : d.validator = validator ∧ d.status = .unbonding
    · rw [isUnbondingTo_true hd] at h
      exact Option.noConfusion h
    · rw [isUnbondingTo_false hd] at h
      rw [completeAux, if_neg hd, ih h]
      rfl

theorem completeAux_early {now : Nat} {validator : Address}
    {ds : List Delegation} {dg : Delegation}
    (h : ds.find? (isUnbondingTo validator) = some dg)
    (hlt : now < dg.unbondTime) :
    completeAux now validator ds = .error "unbonding period not completed" := by
  induction ds with
  | nil => simp at h
  | cons d rest ih =>
    rw [List.find?_cons] at h
    by_cases hd : d.validator = validator ∧ d.status = .unbonding
    · rw [isUnbondingTo_true hd] at h
      have hdg : d = dg := by
        have : some d = some dg := h
        simpa using this
      subst hdg
      rw [completeAux, if_pos hd, if_pos hlt]
    · rw [isUnbondingTo_false hd] at h
      rw [completeAux, if_neg hd, ih h]
      rfl

theorem completeAux_success {now : Nat} {validator : Address}
    {ds : List Delegation} {dg : Delegation}
    (h : ds.find? (isUnbondingTo validator) = some dg)
    (hle : dg.unbondTime ≤ now) :
    ∃ ds', completeAux now validator ds = .ok (dg.amount + dg.rewards, ds') ∧
      ds'.countP (isUnbondingTo validator) =
        ds.countP (isUnbondingTo validator) - 1 := by
  induction ds with
  | nil => simp at h
  | cons d rest ih =>
    rw [List.find?_cons] at h
    by_cases hd : d.validator = validator ∧ d.status = .unbonding
    · rw [isUnbondingTo_true hd] at h
      have hdg : d = dg := by
        have : some d = some dg := h
        simpa using this
      subst hdg
      refine ⟨{ d with status := .completed } :: rest, ?_, ?_⟩
      · rw [completeAux, if_pos hd, if_neg (by omega)]
      · rw [List.countP_cons, List.countP_cons]
        have h1 : isUnbondingTo validator { d with status := .completed } = false := by
          simp [isUnbondingTo]
        rw [h1, isUnbondingTo_true hd]
        simp
    · rw [isUnbondingTo_false hd] at h
      obtain ⟨rest', hr, hc⟩ := ih h
      refine ⟨d :: rest', ?_, ?_⟩
      · rw [completeAux, if_neg hd, hr]
        rfl
      · rw [List.countP_cons, List.countP_cons, hc]
        rw [isUnbondingTo_false hd]
        have hpos : 0 < rest.countP (isUnbondingTo validator) := by
          rw [List.countP_pos_iff]
          exact ⟨dg, List.mem_of_find?_eq_some h, List.find?_some h⟩
        simp

/-- C5: `CompleteUnbonding(delegator, validator)` fails when no
delegation of that delegator to that validator is in the Unbonding
state, and fails when called before the matched delegation's unbond
time; once the unbond time has passed it succeeds, marking the
delegation Completed and returning `amount + rewards`, and it succeeds
exactly once: when the matched delegation was the only Unbonding one, a
second call (at any later time) fails. -/
theorem c5_complete_unbonding (now now2 : Nat)
    (delegator validator : Address) (s : PoSState) :
    (((s.delegators.lookup delegator).getD []).find?
        (isUnbondingTo validator) = none →
      ∃ e, completeUnbonding now delegator validator s = .error e) ∧
    (∀ dg, ((s.delegators.lookup delegator).getD []).find?
        (isUnbondingTo validator) = some dg →
      (now < dg.unbondTime →
        completeUnbonding now delegator validator s =
          .error "unbonding period not completed") ∧
      (dg.unbondTime ≤ now →
        ∃ s', completeUnbonding now delegator validator s =
            .ok (dg.amount + dg.rewards, s') ∧
          (((s.delegators.lookup delegator).getD []).countP
              (isUnbondingTo validator) = 1 →
            ∃ e, completeUnbonding now2 delegator validator s' =
              .error e))) := by
  cases hds : s.delegators.lookup delegator with
  | none =>
    constructor
    · intro _
      exact ⟨"no delegations found", by simp only [completeUnbonding, hds]⟩
    · intro dg hdg
      simp at hdg
  | some ds =>
    constructor
    · intro hnone
      simp only [Option.getD_some] at hnone
      refine ⟨"unbonding delegation not found", ?_⟩
      simp only [completeUnbonding, hds, completeAux_none hnone]
    · intro dg hdg
      simp only [Option.getD_some] at hdg
      constructor
      · intro hlt
        simp only [completeUnbonding, hds, completeAux_early hdg hlt]
      · intro hle
        obtain ⟨ds', hok, hcount⟩ := completeAux_success hdg hle
        refine ⟨{ s with delegators := updAssoc delegator (fun _ => ds') s.delegators }, ?_, ?_⟩
        · simp only [completeUnbonding, hds, hok]
        · intro hone
          simp only [Option.getD_some] at hone
          refine ⟨"unbonding delegation not found", ?_⟩
          have hfind : ds'.find? (isUnbondingTo validator) = none := by
            rw [List.find?_eq_none]
            intro x hx
            have h0 : ds'.countP (isUnbondingTo validator) = 0 := by omega
            rw [List.countP_eq_zero] at h0
            simpa using h0 x hx
          simp only [completeUnbonding, lookup_updAssoc_self, hds,
            Option.map_some, Option.map_some', completeAux_none hfind]

/-- C5 witness: with a single Unbonding delegation whose unbond time is
100, a call at time 50 fails with the unbonding-period error. -/
theorem c5_witness :
    completeUnbonding 50 1 2
      { validators := []
        delegators := [(1,
          [{ delegator := 1, validator := 2, amount := 1000, rewards := 5,
             startTime := 0, unbondTime := 100, status := .unbonding }])]
        totalStake := 0
        config := (newPoS 0 1).config } =
      .error "unbonding period not completed" :=
  ((c5_complete_unbonding 50 0 1 2
      { validators := []
        delegators := [(1,
          [{ delegator := 1, validator := 2, amount := 1000, rewards := 5,
             startTime := 0, unbondTime := 100, status := .unbonding }])]
        totalStake := 0
        config := (newPoS 0 1).config }).2
    { delegator := 1, validator := 2, amount := 1000, rewards := 5,
      startTime := 0, unbondTime := 100, status := .unbonding }
    rfl).1 (by decide)

theorem int64OfUint64_of_lt {u : Nat} (h : u < 2 ^ 63) :
    int64OfUint64 u = (u : Int) := by
  unfold int64OfUint64
  rw [Nat.mod_eq_of_lt (by omega), if_pos h]

/-- C2 counterexample: the claimed balance rule fails on the code once
the `int64(tx.GasLimit)` conversion wraps.  For a transaction with
`GasLimit = 2^63`, `GasPrice = 1`, `Value = 0` from an account with
balance 0, valid signature and nonce, the claimed fee
`GasPrice*GasLimit + Value = 2^63` exceeds the balance, yet
`ValidateTransaction` accepts: the code computes the cost with
`int64(2^63) = -2^63`, which is below the balance. -/
theorem c2_cex :
    (validateTransaction
      { hashFn := fun _ => 0, keccak := fun _ => 0, sigOk := fun _ => true,
        consensusOk := fun _ => true, commitPutOk := fun _ => true,
        putBlockOk := true, putPtrOk := true, now := 0 }
      { durable := ⟨[], [], [], [], none⟩, state := ⟨[]⟩
        currentBlock := ⟨⟨0, 0, 0⟩, [], 0⟩, blockCache := [], txPool := []
        pos := newPoS 0 1, config := { minGasPrice := 0 } }
      { nonce := 0, gasPrice := 1, gasLimit := 2 ^ 63, toAddr := some 2,
        value := 0, data := [], v := 0, r := 0, s := 0, hash := 0,
        fromAddr := 1 }).1 = .ok () ∧
    (getAccount ⟨[], [], [], [], none⟩ ⟨[]⟩ 1).1.balance = 0 ∧
    ((0 : Int) < 1 * (2 ^ 63 : Nat) + 0) := by
  refine ⟨rfl, rfl, by norm_num⟩

/-- C2 (amended): for every transaction whose `GasLimit` is below
`2^63` (so the Go `int64` conversion is value-preserving),
`ValidateTransaction` returns an error exactly when the signature fails,
the nonce differs from the account nonce, the balance is below
`GasPrice*GasLimit + Value`, or the gas price is below the configured
minimum; and whenever the balance is insufficient, `AddTransaction`
returns an error and the transaction is not admitted to the pool. -/
theorem c2_validate_transaction_amended (env : OracleEnv) (bc : BC)
    (tx : Tx) (hg : tx.gasLimit < 2 ^ 63) :
    ((∃ e, (validateTransaction env bc tx).1 = .error e) ↔
      (¬ env.sigOk tx ∨
       tx.nonce ≠ (getAccount bc.durable bc.state tx.fromAddr).1.nonce ∨
       (getAccount bc.durable bc.state tx.fromAddr).1.balance <
         tx.gasPrice * (tx.gasLimit : Int) + tx.value ∨
       tx.gasPrice < bc.config.minGasPrice)) ∧
    ((getAccount bc.durable bc.state tx.fromAddr).1.balance <
        tx.gasPrice * (tx.gasLimit : Int) + tx.value →
      (∃ e, (addTransaction env bc tx).1 = .error e) ∧
      (addTransaction env bc tx).2.txPool = bc.txPool) := by
  rcases hga : getAccount bc.durable bc.state tx.fromAddr with ⟨acct, st1⟩
  constructor
  · simp only [validateTransaction, hga, int64OfUint64_of_lt hg]
    by_cases h1 : env.sigOk tx
    · rw [if_neg (not_not_intro h1)]
      by_cases h2 : tx.nonce = acct.nonce
      · rw [if_neg (not_not_intro h2)]
        by_cases h3 : acct.balance < tx.gasPrice * (tx.gasLimit : Int) + tx.value
        · rw [if_pos h3]
          exact ⟨fun _ => Or.inr (Or.inr (Or.inl h3)), fun _ => ⟨_, rfl⟩⟩
        · rw [if_neg h3]
          by_cases h4 : tx.gasPrice < bc.config.minGasPrice
          · rw [if_pos h4]
            exact ⟨fun _ => Or.inr (Or.inr (Or.inr h4)), fun _ => ⟨_, rfl⟩⟩
          · rw [if_neg h4]
            constructor
            · rintro ⟨e, he⟩
              exact absurd he (by simp)
            · rintro (h | h | h | h)
              · exact absurd h1 h
              · exact absurd h2 h
              · exact absurd h h3
              · exact absurd h h4
      · rw [if_pos h2]
        exact ⟨fun _ => Or.inr (Or.inl h2), fun _ => ⟨_, rfl⟩⟩
    · rw [if_pos h1]
      exact ⟨fun _ => Or.inl h1, fun _ => ⟨_, rfl⟩⟩
  · intro hbal
    replace hbal : acct.balance < tx.gasPrice * (tx.gasLimit : Int) + tx.value := hbal
    simp only [addTransaction, validateTransaction, hga, int64OfUint64_of_lt hg]
    by_cases h1 : env.sigOk tx
    · rw [if_neg (not_not_intro h1)]
      by_cases h2 : tx.nonce = acct.nonce
      · rw [if_neg (not_not_intro h2), if_pos hbal]
        exact ⟨⟨_, rfl⟩, rfl⟩
      · rw [if_pos h2]
        exact ⟨⟨_, rfl⟩, rfl⟩
    · rw [if_pos h1]
      exact ⟨⟨_, rfl⟩, rfl⟩

/-- C2 witness: an account with balance 50 sending value 100 with fee
10 is rejected and the pool stays empty. -/
theorem c2_witness :
    (addTransaction
      { hashFn := fun _ => 0, keccak := fun _ => 0, sigOk := fun _ => true,
        consensusOk := fun _ => true, commitPutOk := fun _ => true,
        putBlockOk := true, putPtrOk := true, now := 0 }
      { durable := ⟨[(1, 50)], [], [], [], none⟩, state := ⟨[]⟩
        currentBlock := ⟨⟨0, 0, 0⟩, [], 0⟩, blockCache := [], txPool := []
        pos := newPoS 0 1, config := { minGasPrice := 0 } }
      { nonce := 0, gasPrice := 1, gasLimit := 10, toAddr := some 2,
        value := 100, data := [], v := 0, r := 0, s := 0, hash := 0,
        fromAddr := 1 }).2.txPool = [] :=
  ((c2_validate_transaction_amended
      { hashFn := fun _ => 0, keccak := fun _ => 0, sigOk := fun _ => true,
        consensusOk := fun _ => true, commitPutOk := fun _ => true,
        putBlockOk := true, putPtrOk := true, now := 0 }
      { durable := ⟨[(1, 50)], [], [], [], none⟩, state := ⟨[]⟩
        currentBlock := ⟨⟨0, 0, 0⟩, [], 0⟩, blockCache := [], txPool := []
        pos := newPoS 0 1, config := { minGasPrice := 0 } }
      { nonce := 0, gasPrice := 1, gasLimit := 10, toAddr := some 2,
        value := 100, data := [], v := 0, r := 0, s := 0, hash := 0,
        fromAddr := 1 }
      (by norm_num)).2 (by decide)).2

/-- The interpreter loop never increases the gas: whatever outcome
`Run` reports, the remaining gas is at most the gas it started with
(the loop only ever subtracts an opcode cost it has checked to be
affordable, and no opcode handler writes the gas). -/
theorem runLoop_gas_le_aux (d : Durable) (a : Address) :
    ∀ (n : Nat) (code : List Nat), code.length ≤ n →
    ∀ (gas : Nat) (stack : List Int) (mem : List Nat) (st : StateDB)
      (out : RunOut), runLoop d a code gas stack mem st = out →
      (∀ g s m st2, out = .done g s m st2 → g ≤ gas) ∧
      (∀ e g st2, out = .failed e g st2 → g ≤ gas) := by
  intro n
  induction n with
  | zero =>
    intro code hlen gas stack mem st out hout
    have hcode : code = [] := List.length_eq_zero.mp (by omega)
    subst hcode
    rw [runLoop] at hout
    subst hout
    refine ⟨fun g s m st2 h => ?_, fun e g st2 h => ?_⟩
    · cases h
      exact le_refl _
    · cases h
  | succ n ih =>
    intro code hlen gas stack mem st out hout
    cases code with
    | nil =>
      rw [runLoop] at hout
      subst hout
      refine ⟨fun g s m st2 h => ?_, fun e g st2 h => ?_⟩
      · cases h
        exact le_refl _
      · cases h
    | cons op rest =>
      rw [runLoop] at hout
      dsimp only at hout
      by_cases hgas : gas < gasCost op
      · rw [if_pos hgas] at hout
        subst hout
        refine ⟨fun g s m st2 h => ?_, fun e g st2 h => ?_⟩
        · cases h
        · cases h
          exact le_refl _
      · rw [if_neg hgas] at hout
        by_cases hop : hasOp op
        · rw [if_pos hop] at hout
          cases hexec : execOp d a (gas - gasCost op) op rest stack mem st with
          | fail e' =>
            rw [hexec] at hout
            subst hout
            refine ⟨fun g s m st2 h => ?_, fun e g st2 h => ?_⟩
            · cases h
            · cases h
              omega
          | panicked =>
            rw [hexec] at hout
            subst hout
            refine ⟨fun g s m st2 h => ?_, fun e g st2 h => ?_⟩
            · cases h
            · cases h
          | ok k stk m st2 =>
            rw [hexec] at hout
            dsimp only at hout
            by_cases hstop : op = 0x00 ∨ op = 0xf3
            · rw [if_pos hstop] at hout
              subst hout
              refine ⟨fun g s mm st3 h => ?_, fun e g st3 h => ?_⟩
              · cases h
                omega
              · cases h
            · rw [if_neg hstop] at hout
              have hlen2 : (rest.drop k).length ≤ n := by
                rw [List.length_drop]
                simp at hlen
                omega
              have hrec := ih (rest.drop k) hlen2 (gas - gasCost op) stk m st2
                out hout
              refine ⟨fun g s mm st3 h => ?_, fun e g st3 h => ?_⟩
              · exact le_trans (hrec.1 g s mm st3 h) (Nat.sub_le _ _)
              · exact le_trans (hrec.2 e g st3 h) (Nat.sub_le _ _)
        · rw [if_neg hop] at hout
          subst hout
          refine ⟨fun g s m st2 h => ?_, fun e g st2 h => ?_⟩
          · cases h
          · cases h
            omega

/-- Specialization of the gas bound to a `Run` call. -/
theorem runLoop_gas_le (d : Durable) (a : Address) (code : List Nat)
    (gas : Nat) (stack : List Int) (mem : List Nat) (st : StateDB) :
    (∀ g s m st2, runLoop d a code gas stack mem st = .done g s m st2 →
      g ≤ gas) ∧
    (∀ e g st2, runLoop d a code gas stack mem st = .failed e g st2 →
      g ≤ gas) :=
  runLoop_gas_le_aux d a code.length code (le_refl _) gas stack mem st
    (runLoop d a code gas stack mem st) rfl

/-- C4: gas consumption is monotone and bounded.  Every receipt
produced by `EVM.ExecuteTransaction` has `GasUsed ≤ tx.GasLimit` (gas is
unsigned, so never negative); and when execution fails with out-of-gas
— detected before executing the opcode, with no partial execution — the
receipt has status 0 and `GasUsed = GasLimit - g` where `g` is the gas
remaining at the point of failure as reported by the interpreter
loop. -/
theorem c4_gas_monotone_bounded (d : Durable) (st : StateDB) (tx : Tx)
    (r : Receipt) (st' : StateDB) (oe : Option VMErr)
    (hg : tx.gasLimit < 2 ^ 64)
    (h : evmExecuteTransaction d st tx = some (r, st', oe)) :
    r.gasUsed ≤ tx.gasLimit ∧
    (oe = some .outOfGas → r.status = 0 ∧ ∃ dest g st2,
      tx.toAddr = some dest ∧
      runLoop d dest (getCode d st dest).1 tx.gasLimit [] []
        (getCodeHash d (getCode d st dest).2 dest).2 =
        .failed .outOfGas g st2 ∧
      g ≤ tx.gasLimit ∧ r.gasUsed = tx.gasLimit - g) := by
  unfold evmExecuteTransaction at h
  cases hto : tx.toAddr with
  | none =>
    rw [hto] at h
    exact absurd h (by simp)
  | some dest =>
    rw [hto] at h
    dsimp only at h
    rcases hgc : getCode d st dest with ⟨code0, st1⟩
    rw [hgc] at h
    dsimp only at h
    rcases hgh : getCodeHash d st1 dest with ⟨ch0, st2⟩
    rw [hgh] at h
    dsimp only at h
    cases hrun : runLoop d dest code0 tx.gasLimit [] [] st2 with
    | panicked =>
      rw [hrun] at h
      exact absurd h (by simp)
    | failed e g st3 =>
      rw [hrun] at h
      simp only [Option.some.injEq, Prod.mk.injEq] at h
      obtain ⟨hr, hst, hoe⟩ := h
      have hgle : g ≤ tx.gasLimit :=
        (runLoop_gas_le d dest code0 tx.gasLimit [] [] st2).2 e g st3 hrun
      constructor
      · rw [← hr]
        dsimp only
        rw [usub64_of_le hgle hg]
        omega
      · intro hoog
        rw [← hoe] at hoog
        simp only [Option.some.injEq] at hoog
        subst hoog
        refine ⟨by rw [← hr], dest, g, st3, rfl, ?_, hgle, ?_⟩
        · rw [hgc]
          dsimp only
          rw [hgh]
          dsimp only
          exact hrun
        · rw [← hr]
          dsimp only
          exact usub64_of_le hgle hg
    | done g stk mm st3 =>
      rw [hrun] at h
      dsimp only at h
      simp only [Option.some.injEq, Prod.mk.injEq] at h
      obtain ⟨hr, hst, hoe⟩ := h
      have hgle : g ≤ tx.gasLimit :=
        (runLoop_gas_le d dest code0 tx.gasLimit [] [] st2).1 g stk mm st3 hrun
      constructor
      · rw [← hr]
        dsimp only
        rw [usub64_of_le hgle hg]
        omega
      · intro hoog
        rw [← hoe] at hoog
        exact absurd hoog (by simp)

/-- C4 witness: with 5 gas against code consisting of one `SSTORE`
(static cost 20000), the receipt of the failed execution reports gas
used at most the limit (here `GasUsed = 5 - 5 = 0`, status 0). -/
theorem c4_witness :
    ({ txHash := 7, status := 0, gasUsed := 0 } : Receipt).gasUsed ≤ 5 :=
  (c4_gas_monotone_bounded ⟨[], [], [], [], none⟩
    ⟨[(2, { nonce := 0, balance := 0, codeHash := [], code := [0x55],
            storage := [] })]⟩
    { nonce := 0, gasPrice := 0, gasLimit := 5, toAddr := some 2,
      value := 0, data := [], v := 0, r := 0, s := 0, hash := 7,
      fromAddr := 1 }
    { txHash := 7, status := 0, gasUsed := 0 }
    ⟨[(2, { nonce := 0, balance := 0, codeHash := [], code := [0x55],
            storage := [] })]⟩
    (some .outOfGas) (by norm_num)
    (by
      have hrun : runLoop ⟨[], [], [], [], none⟩ 2 [0x55] 5 [] []
          ⟨[(2, { nonce := 0, balance := 0, codeHash := [], code := [0x55],
                  storage := [] })]⟩ =
          .failed .outOfGas 5
            ⟨[(2, { nonce := 0, balance := 0, codeHash := [], code := [0x55],
                    storage := [] })]⟩ := by
        rw [runLoop]
        norm_num [gasCost]
      simp only [evmExecuteTransaction, getCode, getCodeHash, getAccount,
        List.lookup]
      norm_num [hrun, usub64])).1

theorem getBlockByHash_some_mem {bc : BC} {h : Hash} {b : Block} {bc2 : BC}
    (hgb : getBlockByHash bc h = (some b, bc2)) :
    (bc.blockCache.lookup h).isSome ∨
    (bc.durable.blocks.lookup h).isSome := by
  unfold getBlockByHash at hgb
  cases hc : bc.blockCache.lookup h with
  | some x => exact Or.inl rfl
  | none =>
    rw [hc] at hgb
    cases hd : bc.durable.blocks.lookup h with
    | none =>
      rw [hd] at hgb
      simp at hgb
    | some y => exact Or.inr rfl

theorem validateBlock_ok_parent {env : OracleEnv} {bc : BC} {block : Block}
    {bc1 : BC} (h : validateBlock env bc block = (.ok (), bc1))
    (hn : 0 < block.header.number) :
    (bc.blockCache.lookup block.header.parentHash).isSome ∨
    (bc.durable.blocks.lookup block.header.parentHash).isSome := by
  unfold validateBlock at h
  by_cases hh : block.hash ≠ env.hashFn block.header
  · rw [if_pos hh] at h
    simp at h
  · rw [if_neg hh] at h
    dsimp only at h
    rw [if_pos hn] at h
    rcases hgb : getBlockByHash bc block.header.parentHash with ⟨ob, bc2⟩
    rw [hgb] at h
    cases ob with
    | none =>
      dsimp only at h
      simp at h
    | some b =>
      exact getBlockByHash_some_mem hgb

/-- C3 counterexample: the claim that `ProcessBlock` never advances
`currentBlock` out of order fails on the code.  With a stored chain
genesis (hash 100) ← block 1 (hash 101) and `currentBlock` at block 1, a
well-hashed block whose parent is the *genesis* block and whose number
is 5 passes every check of `ValidateBlock` (the parent must only exist
in the store) and is accepted: `currentBlock` moves to a block whose
`ParentHash` is not the hash of the previous tip and whose `Number` is
not the previous tip number plus 1. -/
theorem c3_cex :
    (pbState (processBlock
      { hashFn := fun _ => 102, keccak := fun _ => 0, sigOk := fun _ => true,
        consensusOk := fun _ => true, commitPutOk := fun _ => true,
        putBlockOk := true, putPtrOk := true, now := 0 }
      { durable := ⟨[], [], [],
          [(100, ⟨⟨0, 0, 9⟩, [], 100⟩), (101, ⟨⟨100, 1, 9⟩, [], 101⟩)],
          some 101⟩
        state := ⟨[]⟩
        currentBlock := ⟨⟨100, 1, 9⟩, [], 101⟩
        blockCache := [], txPool := []
        pos := newPoS 0 0, config := { minGasPrice := 0 } }
      ⟨⟨100, 5, 9⟩, [], 102⟩)).map (fun b => b.currentBlock) =
      some ⟨⟨100, 5, 9⟩, [], 102⟩ ∧
    pbIsErr (processBlock
      { hashFn := fun _ => 102, keccak := fun _ => 0, sigOk := fun _ => true,
        consensusOk := fun _ => true, commitPutOk := fun _ => true,
        putBlockOk := true, putPtrOk := true, now := 0 }
      { durable := ⟨[], [], [],
          [(100, ⟨⟨0, 0, 9⟩, [], 100⟩), (101, ⟨⟨100, 1, 9⟩, [], 101⟩)],
          some 101⟩
        state := ⟨[]⟩
        currentBlock := ⟨⟨100, 1, 9⟩, [], 101⟩
        blockCache := [], txPool := []
        pos := newPoS 0 0, config := { minGasPrice := 0 } }
      ⟨⟨100, 5, 9⟩, [], 102⟩) = false ∧
    (⟨⟨100, 5, 9⟩, [], 102⟩ : Block).header.parentHash ≠
      (⟨⟨100, 1, 9⟩, [], 101⟩ : Block).hash ∧
    (⟨⟨100, 5, 9⟩, [], 102⟩ : Block).header.number ≠
      (⟨⟨100, 1, 9⟩, [], 101⟩ : Block).header.number + 1 := by
  exact ⟨rfl, rfl, by decide, by decide⟩

/-- C3 (amended): for every block accepted by `ProcessBlock` with a
positive number, the block's `ParentHash` refers to some block present
in the block cache or the durable store at the start of the call; the
code checks only this existence — it does not require the parent to be
the previous tip, nor the number to be the parent number plus one. -/
theorem c3_parent_exists_amended (env : OracleEnv) (bc : BC) (block : Block)
    (bc' : BC) (h : processBlock env bc block = .ok bc')
    (hn : 0 < block.header.number) :
    (bc.blockCache.lookup block.header.parentHash).isSome ∨
    (bc.durable.blocks.lookup block.header.parentHash).isSome := by
  unfold processBlock at h
  rcases hv : validateBlock env bc block with ⟨res, bc1⟩
  rw [hv] at h
  cases res with
  | error e =>
    dsimp only at h
    exact absurd h (by simp)
  | ok u =>
    cases u
    exact validateBlock_ok_parent hv hn

/-- C3 witness: a concrete accepted block whose parent (the stored
genesis) is found in the durable store. -/
theorem c3_witness :
    (((⟨[], [], [],
        [(100, ⟨⟨0, 0, 9⟩, [], 100⟩), (101, ⟨⟨100, 1, 9⟩, [], 101⟩)],
        some 101⟩ : Durable).blocks.lookup 100).isSome = true) := by
  have h := c3_parent_exists_amended
    { hashFn := fun _ => 102, keccak := fun _ => 0, sigOk := fun _ => true,
      consensusOk := fun _ => true, commitPutOk := fun _ => true,
      putBlockOk := true, putPtrOk := true, now := 0 }
    { durable := ⟨[], [], [],
        [(100, ⟨⟨0, 0, 9⟩, [], 100⟩), (101, ⟨⟨100, 1, 9⟩, [], 101⟩)],
        some 101⟩
      state := ⟨[]⟩
      currentBlock := ⟨⟨100, 1, 9⟩, [], 101⟩
      blockCache := [], txPool := []
      pos := newPoS 0 0, config := { minGasPrice := 0 } }
    ⟨⟨100, 5, 9⟩, [], 102⟩ _ rfl (by decide)
  rcases h with h | h
  · exact absurd h (by decide)
  · exact h

theorem validateTransaction_currentBlock (env : OracleEnv) (bc : BC)
    (tx : Tx) :
    ((validateTransaction env bc tx).2).currentBlock = bc.currentBlock := by
  unfold validateTransaction
  rcases hga : getAccount bc.durable bc.state tx.fromAddr with ⟨acct, st1⟩
  dsimp only
  split_ifs <;> rfl

theorem validateTxList_currentBlock (env : OracleEnv) :
    ∀ (txs : List Tx) (bc : BC),
      ((validateTxList env bc txs).2).currentBlock = bc.currentBlock := by
  intro txs
  induction txs with
  | nil => intro bc; rfl
  | cons t ts ih =>
    intro bc
    unfold validateTxList
    rcases hv : validateTransaction env bc t with ⟨res, bc1⟩
    have hc : bc1.currentBlock = bc.currentBlock := by
      have := validateTransaction_currentBlock env bc t
      rw [hv] at this
      exact this
    cases res with
    | error e =>
      dsimp only
      exact hc
    | ok u =>
      dsimp only
      rw [ih bc1, hc]

theorem getBlockByHash_currentBlock (bc : BC) (h : Hash) :
    ((getBlockByHash bc h).2).currentBlock = bc.currentBlock := by
  unfold getBlockByHash
  cases hc : bc.blockCache.lookup h with
  | some b => rfl
  | none =>
    cases hd : bc.durable.blocks.lookup h with
    | none => rfl
    | some b => rfl

theorem validateBlock_currentBlock (env : OracleEnv) (bc : BC)
    (block : Block) :
    ((validateBlock env bc block).2).currentBlock = bc.currentBlock := by
  unfold validateBlock
  by_cases hh : block.hash ≠ env.hashFn block.header
  · rw [if_pos hh]
  · rw [if_neg hh]
    dsimp only
    by_cases hn : 0 < block.header.number
    · rw [if_pos hn]
      rcases hgb : getBlockByHash bc block.header.parentHash with ⟨ob, bc2⟩
      have hc2 : bc2.currentBlock = bc.currentBlock := by
        have := getBlockByHash_currentBlock bc block.header.parentHash
        rw [hgb] at this
        exact this
      cases ob with
      | none =>
        dsimp only
        exact hc2
      | some b =>
        dsimp only
        by_cases hcons : ¬ env.consensusOk block
        · rw [if_pos hcons]
          exact hc2
        · rw [if_neg hcons]
          rw [validateTxList_currentBlock env block.transactions bc2, hc2]
    · rw [if_neg hn]
      dsimp only
      by_cases hcons : ¬ env.consensusOk block
      · rw [if_pos hcons]
      · rw [if_neg hcons]
        rw [validateTxList_currentBlock env block.transactions bc]

/-- C1 (amended): whenever `ProcessBlock` returns an error — at
validation, transaction execution, state commit, or block/pointer
persistence — the in-memory `currentBlock` pointer is unchanged; and on
success `currentBlock` is advanced only to a block that has been durably
persisted together with the `"currentBlock"` pointer.  (The original
claim's further assertion that a failed call leaves no partial state in
the durable store is false — see the counterexample: a block-persistence
failure happens after `State.Commit` has already durably written the
block's state changes.) -/
theorem c1_process_block_amended (env : OracleEnv) (bc : BC)
    (block : Block) :
    (∀ e bc', processBlock env bc block = .err e bc' →
      bc'.currentBlock = bc.currentBlock) ∧
    (∀ bc', processBlock env bc block = .ok bc' →
      bc'.currentBlock = block ∧
      bc'.durable.blocks.lookup block.hash = some block ∧
      bc'.durable.currentPtr = some block.hash) := by
  unfold processBlock
  rcases hv : validateBlock env bc block with ⟨res, bc1⟩
  have hc1 : bc1.currentBlock = bc.currentBlock := by
    have := validateBlock_currentBlock env bc block
    rw [hv] at this
    exact this
  cases res with
  | error e0 =>
    dsimp only
    constructor
    · intro e bc' h
      cases h
      exact hc1
    · intro bc' h
      cases h
  | ok u =>
    cases u
    dsimp only
    cases hex : executeTxList bc1.durable bc1.state block.transactions with
    | panicked =>
      constructor
      · intro e bc' h
        cases h
      · intro bc' h
        cases h
    | fail st2 =>
      constructor
      · intro e bc' h
        cases h
        exact hc1
      · intro bc' h
        cases h
    | ok st2 =>
      dsimp only
      generalize stateCommit env.commitPutOk env.keccak bc1.durable st2 = scr
      obtain ⟨d3, st3, okb⟩ := scr
      cases okb
      · dsimp only
        constructor
        · intro e bc' h
          cases h
          exact hc1
        · intro bc' h
          cases h
      · dsimp only
        by_cases hpb : ¬ env.putBlockOk
        · rw [if_pos hpb]
          constructor
          · intro e bc' h
            cases h
            exact hc1
          · intro bc' h
            cases h
        · rw [if_neg hpb]
          by_cases hpp : ¬ env.putPtrOk
          · rw [if_pos hpp]
            constructor
            · intro e bc' h
              cases h
              exact hc1
            · intro bc' h
              cases h
          · rw [if_neg hpp]
            cases hpu : posUpdateBlock env.now block.header.validator bc1.pos
              with
            | none =>
              constructor
              · intro e bc' h
                cases h
              · intro bc' h
                cases h
            | some pos2 =>
              constructor
              · intro e bc' h
                cases h
              · intro bc' h
                cases h
                exact ⟨rfl, lookup_setAssoc_self _ _ _, rfl⟩

/-- C1 witness: a failure while persisting the `"currentBlock"` pointer
(block already persisted) makes `ProcessBlock` return an error and
leaves the in-memory `currentBlock` at the previous tip. -/
theorem c1_witness :
    processBlock
      { hashFn := fun _ => 55, keccak := fun _ => 0, sigOk := fun _ => true,
        consensusOk := fun _ => true, commitPutOk := fun _ => true,
        putBlockOk := true, putPtrOk := false, now := 0 }
      { durable := ⟨[], [], [], [], none⟩, state := ⟨[]⟩
        currentBlock := ⟨⟨0, 0, 9⟩, [], 1⟩, blockCache := [], txPool := []
        pos := newPoS 0 0, config := { minGasPrice := 0 } }
      ⟨⟨0, 0, 9⟩, [], 55⟩ =
      .err "failed to update current block"
        { durable := ⟨[], [], [], [(55, ⟨⟨0, 0, 9⟩, [], 55⟩)], none⟩
          state := ⟨[]⟩
          currentBlock := ⟨⟨0, 0, 9⟩, [], 1⟩, blockCache := [], txPool := []
          pos := newPoS 0 0, config := { minGasPrice := 0 } } ∧
    ({ durable := ⟨[], [], [], [(55, ⟨⟨0, 0, 9⟩, [], 55⟩)], none⟩
       state := ⟨[]⟩
       currentBlock := ⟨⟨0, 0, 9⟩, [], 1⟩, blockCache := [], txPool := []
       pos := newPoS 0 0, config := { minGasPrice := 0 } } : BC).currentBlock =
      ({ durable := ⟨[], [], [], [], none⟩, state := ⟨[]⟩
         currentBlock := ⟨⟨0, 0, 9⟩, [], 1⟩, blockCache := [], txPool := []
         pos := newPoS 0 0, config := { minGasPrice := 0 } } : BC).currentBlock :=
  ⟨rfl,
    (c1_process_block_amended
      { hashFn := fun _ => 55, keccak := fun _ => 0, sigOk := fun _ => true,
        consensusOk := fun _ => true, commitPutOk := fun _ => true,
        putBlockOk := true, putPtrOk := false, now := 0 }
      { durable := ⟨[], [], [], [], none⟩, state := ⟨[]⟩
        currentBlock := ⟨⟨0, 0, 9⟩, [], 1⟩, blockCache := [], txPool := []
        pos := newPoS 0 0, config := { minGasPrice := 0 } }
      ⟨⟨0, 0, 9⟩, [], 55⟩).1 "failed to update current block"
      { durable := ⟨[], [], [], [(55, ⟨⟨0, 0, 9⟩, [], 55⟩)], none⟩
        state := ⟨[]⟩
        currentBlock := ⟨⟨0, 0, 9⟩, [], 1⟩, blockCache := [], txPool := []
        pos := newPoS 0 0, config := { minGasPrice := 0 } } rfl⟩

/-- C1 counterexample: the claim that a failed `ProcessBlock` commits no
partial state changes from the block to the durable store fails on the
code.  A block with one transaction whose contract code is
`PUSH1 1; PUSH1 3; SSTORE` executes, `State.Commit` durably writes the
new storage slot `(2,3) ↦ 1`, and only then the block persistence put
fails: `ProcessBlock` returns an error, yet the block's state change is
already durably committed (the slot store went from empty to
non-empty). -/
theorem c1_cex :
    pbIsErr (processBlock
      { hashFn := fun _ => 55, keccak := fun _ => 0, sigOk := fun _ => true,
        consensusOk := fun _ => true, commitPutOk := fun _ => true,
        putBlockOk := false, putPtrOk := true, now := 0 }
      { durable := ⟨[], [], [], [], none⟩
        state := ⟨[(2, { nonce := 0, balance := 0, codeHash := [],
                         code := [0x60, 1, 0x60, 3, 0x55], storage := [] })]⟩
        currentBlock := ⟨⟨0, 0, 9⟩, [], 1⟩, blockCache := [], txPool := []
        pos := newPoS 0 0, config := { minGasPrice := 0 } }
      ⟨⟨0, 0, 9⟩,
        [{ nonce := 0, gasPrice := 0, gasLimit := 21000, toAddr := some 2,
           value := 0, data := [], v := 0, r := 0, s := 0, hash := 77,
           fromAddr := 1 }], 55⟩) = true ∧
    (pbState (processBlock
      { hashFn := fun _ => 55, keccak := fun _ => 0, sigOk := fun _ => true,
        consensusOk := fun _ => true, commitPutOk := fun _ => true,
        putBlockOk := false, putPtrOk := true, now := 0 }
      { durable := ⟨[], [], [], [], none⟩
        state := ⟨[(2, { nonce := 0, balance := 0, codeHash := [],
                         code := [0x60, 1, 0x60, 3, 0x55], storage := [] })]⟩
        currentBlock := ⟨⟨0, 0, 9⟩, [], 1⟩, blockCache := [], txPool := []
        pos := newPoS 0 0, config := { minGasPrice := 0 } }
      ⟨⟨0, 0, 9⟩,
        [{ nonce := 0, gasPrice := 0, gasLimit := 21000, toAddr := some 2,
           value := 0, data := [], v := 0, r := 0, s := 0, hash := 77,
           fromAddr := 1 }], 55⟩)).map (fun b => b.durable.slots) =
      some [((2, 3), 1)] ∧
    (⟨[], [], [], [], none⟩ : Durable).slots = [] := by
  have hrun : runLoop ⟨[], [], [], [], none⟩ 2 [0x60, 1, 0x60, 3, 0x55]
      21000 [] []
      ⟨[(1, { nonce := 0, balance := 0, codeHash := [], code := [],
              storage := [] }),
        (2, { nonce := 0, balance := 0, codeHash := [],
              code := [0x60, 1, 0x60, 3, 0x55], storage := [] })]⟩ =
      .done 994 [] []
        ⟨[(1, { nonce := 0, balance := 0, codeHash := [], code := [],
                storage := [] }),
          (2, { nonce := 0, balance := 0, codeHash := [],
                code := [0x60, 1, 0x60, 3, 0x55],
                storage := [(3, 1)] })]⟩ := by
    norm_num [runLoop, gasCost, hasOp, execOp, stackPop, bytesToNat,
      goUint64OfInt, bigToHash, setStorage, getAccount, List.lookup,
      updAssoc, setAssoc]
  have hexec : evmExecuteTransaction ⟨[], [], [], [], none⟩
      ⟨[(1, { nonce := 0, balance := 0, codeHash := [], code := [],
              storage := [] }),
        (2, { nonce := 0, balance := 0, codeHash := [],
              code := [0x60, 1, 0x60, 3, 0x55], storage := [] })]⟩
      { nonce := 0, gasPrice := 0, gasLimit := 21000, toAddr := some 2,
        value := 0, data := [], v := 0, r := 0, s := 0, hash := 77,
        fromAddr := 1 } =
      some ({ txHash := 77, status := 1, gasUsed := 20006 },
        ⟨[(1, { nonce := 1, balance := 0, codeHash := [], code := [],
                storage := [] }),
          (2, { nonce := 0, balance := 0, codeHash := [],
                code := [0x60, 1, 0x60, 3, 0x55],
                storage := [(3, 1)] })]⟩, none) := by
    simp [evmExecuteTransaction, getCode, getCodeHash, getAccount,
      getNonce, setNonce, List.lookup, hrun, usub64, updAssoc]
  refine ⟨?_, ?_, rfl⟩ <;>
    simp [processBlock, validateBlock, validateTxList,
      validateTransaction, getAccount, List.lookup, int64OfUint64,
      executeTxList, hexec, stateCommit, commitAccounts, commitSlots,
      updAssoc, setAssoc, pbIsErr, pbState]

end Diora
